import Mathlib

/-!
Verification development for the FAT32 shell of `src/src/filesys.cpp`.

The C++ program operates on a memory-mapped image (`uint8_t* mFilesys_`,
`size_t filesys_size_`).  We embed it at two levels:

* a byte level (`Mem := Nat → Nat`, values < 256 for well-formed states)
  carrying `ReadValue` / `WriteValue` / `Validate` / the per-copy FAT write
  `SetNextClusImage`, translated literally from the source including the
  `width * len + pos >= filesys_size_` bounds test;

* an abstract state `FsState` for the FAT-engine and command claims, in
  which the FS-Information words (free count at FsInfo·BytesPerSec+488,
  next-free hint at +492), the FAT words, and the data-region bytes are
  separate components.  This is the projection of the byte level for
  images whose reserved area, FAT copies and data region occupy disjoint
  byte ranges; every accessor of the source reads or writes exactly one
  component.  32-bit wrap-around is kept explicit as `% 2 ^ 32`.

Loops of the source (`while`, `do … while`) are embedded with an explicit
fuel argument so that every definition is executable by the kernel; the
fuel is always instantiated or hypothesised large enough that the
embedded function agrees with the source loop.
-/

/-- `#define FATMASK 0x0FFFFFFF` : mask selecting the low 28 bits. -/
def FATMASK : Nat := 0x0FFFFFFF

/-- `#define FATEND 0x0FFFFFF8` : values at or above it mark
end-of-chain. -/
def FATEND : Nat := 0x0FFFFFF8

/-- `#define DEALLOC 0xe5` : first name byte of a deallocated entry. -/
def DEALLOC : Nat := 0xe5

/-- `DIRECT = 1 << 4` from the `AttrMask` enum of `filesys.h`. -/
def DIRECT : Nat := 16

/-- `LONG = RDONLY | HIDDEN | SYS | VOLID` from the `AttrMask` enum. -/
def LONG : Nat := 15

/-- The mapped image: a byte array, addressed by `Nat` offsets. -/
abbrev Mem := Nat → Nat

/-- Little-endian assembly of `width` bytes starting at `pos`, as in the
inner loop of `Filesys::ReadValue`:
`data[i] |= mFilesys_[pos + (i * width) + p] << (8 * p)`. -/
def readBytesLE (m : Mem) (pos width : Nat) : Nat :=
  (List.range width).foldl (fun d p => d ||| (m (pos + p) <<< (8 * p))) 0

/-- `Filesys::ReadValue(data, len, pos, width)` (filesys.cpp:220-232):
bounds-check `width * len + pos >= filesys_size_` (throwing on failure),
then read `len` little-endian values of `width` bytes each. -/
def ReadValue (m : Mem) (size : Nat) (len pos width : Nat) :
    Except Unit (List Nat) :=
  if size ≤ width * len + pos then .error ()
  else .ok ((List.range len).map (fun i => readBytesLE m (pos + i * width) width))

/-- Store one value little-endian: byte `pos + p` receives
`(uint8_t)(tData & 0xFF)` after `p` shifts of `tData >>= 8`. -/
def writeBytesLE (m : Mem) (pos width val : Nat) : Mem :=
  fun q => if pos ≤ q ∧ q < pos + width then (val >>> (8 * (q - pos))) % 256 else m q

/-- Write `vals` consecutively, each `width` bytes, value `i` at
`pos + i * width` (the body of `Filesys::WriteValue`). -/
def writeListLE (m : Mem) (vals : List Nat) (pos width : Nat) : Mem :=
  match vals with
  | [] => m
  | v :: rest => writeListLE (writeBytesLE m pos width v) rest (pos + width) width

/-- `Filesys::WriteValue(data, len, pos, width)` (filesys.cpp:236-254):
same bounds test as `ReadValue`, then the little-endian stores. -/
def WriteValue (m : Mem) (size : Nat) (vals : List Nat) (pos width : Nat) :
    Except Unit Mem :=
  if size ≤ width * vals.length + pos then .error ()
  else .ok (writeListLE m vals pos width)

/-- The `Fat32Info` struct of `filesys.h` (the fields used by the engine). -/
structure Fat32Info where
  BytesPerSec : Nat
  RootEntCnt : Nat
  RootDirSector : Nat
  FATSz16 : Nat
  FATSz32 : Nat
  FATSz : Nat
  RsvdSecCnt : Nat
  NumFats : Nat
  SecPerClus : Nat
  FirstDataSec : Nat
  RootClus : Nat
  FsInfo : Nat
  TotSec : Nat
deriving Repr, DecidableEq

/-- `Fat32Info::GetFirstSectorOfClus(n) = (n - 2) * SecPerClus + FirstDataSec`
(filesys.cpp:368-371); `n ≥ 2` for every cluster the program handles, so
`Nat` subtraction agrees with the `uint32_t` arithmetic. -/
def Fat32Info.GetFirstSectorOfClus (f : Fat32Info) (n : Nat) : Nat :=
  (n - 2) * f.SecPerClus + f.FirstDataSec

/-- `Fat32Info::GetThisFatSecN(n) = RsvdSecCnt + (n * 4) / BytesPerSec`
(filesys.cpp:374-377). -/
def Fat32Info.GetThisFatSecN (f : Fat32Info) (n : Nat) : Nat :=
  f.RsvdSecCnt + n * 4 / f.BytesPerSec

/-- `Fat32Info::GetThisFatEntOff(n) = (n * 4) % BytesPerSec`
(filesys.cpp:380-383). -/
def Fat32Info.GetThisFatEntOff (f : Fat32Info) (n : Nat) : Nat :=
  n * 4 % f.BytesPerSec

/-- `Fat32Info::GetEndOfFat() = (TotSec - FirstDataSec) / SecPerClus + 1`
(filesys.cpp:386-389); on a mounted image `FirstDataSec ≤ TotSec`. -/
def Fat32Info.GetEndOfFat (f : Fat32Info) : Nat :=
  (f.TotSec - f.FirstDataSec) / f.SecPerClus + 1

/-- Byte offset of the FAT entry of cluster `n` in FAT copy `i`:
`(GetThisFatSecN(n) + i * FATSz) * BytesPerSec + GetThisFatEntOff(n)`,
exactly the position expression of `Filesys::SetNextClus`. -/
def fatEntryAddr (f : Fat32Info) (i n : Nat) : Nat :=
  (f.GetThisFatSecN n + i * f.FATSz) * f.BytesPerSec + f.GetThisFatEntOff n

/-- One iteration of the `Filesys::SetNextClus` loop (filesys.cpp:315-328)
at copy `i`: read the current word (only its bounds check is observable —
the merged `entry = (entry & ~FATMASK) | (value & FATMASK)` is computed by
the source but never written), then write `value & FATMASK`. -/
def SetNextClusImageStep (f : Fat32Info) (size : Nat) (m : Mem)
    (i fatLoc value : Nat) : Except Unit Mem := do
  let _ ← ReadValue m size 1 (fatEntryAddr f i fatLoc) 4
  WriteValue m size [value &&& FATMASK] (fatEntryAddr f i fatLoc) 4

/-- `Filesys::SetNextClus(fatLoc, value)` (filesys.cpp:312-329) at the
byte level: update each of the `NumFats` FAT copies in turn. -/
def SetNextClusImage (f : Fat32Info) (m : Mem) (size : Nat)
    (fatLoc value : Nat) : Except Unit Mem :=
  (List.range f.NumFats).foldlM
    (fun acc i => SetNextClusImageStep f size acc i fatLoc value) m

/-- The `FileEntry` class of `filesys.h`: decoded directory-entry fields
plus the absolute byte offset `entryLoc` of the 32-byte slot. -/
structure FileEntry where
  name : List Char
  attr : Nat
  lo : Nat
  hi : Nat
  wrtTime : Nat
  wrtDate : Nat
  size : Nat
  clus : Nat
  entryLoc : Nat
  openInfo : Nat
deriving Repr, DecidableEq

/-- The cluster-number reconstruction of the `FileEntry` constructor
(filesys.cpp:399-401): `clus = lo; clus |= hi << 16`. -/
def decodeClus (lo hi : Nat) : Nat := lo ||| (hi <<< 16)

/-- `FileEntry::SetClus(cluster)` (filesys.cpp:470-475):
`clus = cluster; hi = (cluster & 0xFFFF0000) >> 4; lo = cluster & 0xFFFF`.
`hi` and `lo` are `uint16_t`, so the assignments truncate mod `2 ^ 16`. -/
def FileEntry.SetClus (e : FileEntry) (cluster : Nat) : FileEntry :=
  { e with
    clus := cluster % 2 ^ 32
    hi := ((cluster &&& 0xFFFF0000) >>> 4) % 2 ^ 16
    lo := (cluster &&& 0x0000FFFF) % 2 ^ 16 }

/-- `FileEntry::IsDir()` (filesys.cpp:442-448): `(attr & DIRECT) == DIRECT`. -/
def FileEntry.IsDir (e : FileEntry) : Bool := e.attr &&& DIRECT = DIRECT

/-- `FileEntry::GetShortName()` (filesys.cpp:416-439): the characters of
`name[0..8)` that are not spaces, then, if any of `name[8..11)` is not a
space, a dot and those characters; the result lower-cased. -/
def FileEntry.GetShortName (e : FileEntry) : List Char :=
  let newName := (e.name.take 8).filter (fun c => c ≠ ' ')
  let pfix := ((e.name.drop 8).take 3).filter (fun c => c ≠ ' ')
  (if pfix.length ≠ 0 then newName ++ '.' :: pfix else newName).map Char.toLower

/-- `FileEntry::SetCurrentTime()` (filesys.cpp:451-467) as a function of
the broken-down local time: returns the `(wrtTime, wrtDate)` pair.
`wrtDate = mday | (mon+1) << 5 | (year-80) << 9`,
`wrtTime = min(sec/2, 29) | min << 5 | hour << 11`, both `uint16_t`. -/
def SetCurrentTime (mday mon year sec min hour : Nat) : Nat × Nat :=
  let wrtDate := (mday ||| ((mon + 1) <<< 5) ||| ((year - 80) <<< 9)) % 2 ^ 16
  let tValue := sec / 2 % 2 ^ 8
  let tCap := if 29 < tValue then 29 else tValue
  let wrtTime := (tCap ||| (min <<< 5) ||| (hour <<< 11)) % 2 ^ 16
  (wrtTime, wrtDate)

/-- Abstract state of the mounted file system: geometry, `cwd_` and
`location_`, the 32-bit FAT words (`SetNextClus` stores the same word in
every copy, `GetNextClus` reads copy 0, so one array suffices), the two
FS-Information words, and the bytes of the data region (directory
entries and file data), addressed by absolute image offset as in the
source.  On a mounted image these byte ranges are pairwise disjoint, so
each accessor of the source touches exactly one component. -/
structure FsState where
  info : Fat32Info
  fat : Nat → Nat
  freeCount : Nat
  nextFree : Nat
  mem : Nat → Nat
  cwd : Nat
  location : List Char

/-- `Filesys::GetNextClus(cluster)` (filesys.cpp:302-309): read the
32-bit FAT word of `cluster` and `return entry & FATMASK`. -/
def GetNextClus (s : FsState) (cluster : Nat) : Nat :=
  s.fat cluster &&& FATMASK

/-- `Filesys::SetNextClus(fatLoc, value)` (filesys.cpp:312-329) on the
abstract state: the word actually stored in every copy is
`value & FATMASK` (the merged `entry` of the source is dead code). -/
def SetNextClus (s : FsState) (fatLoc value : Nat) : FsState :=
  { s with fat := fun m => if m = fatLoc then value &&& FATMASK else s.fat m }

/-- `Filesys::GetNFreeClus()` (filesys.cpp:354-359): the 32-bit word at
`FsInfo * BytesPerSec + 488`. -/
def GetNFreeClus (s : FsState) : Nat := s.freeCount

/-- `Filesys::SetNFreeClus(value)` (filesys.cpp:362-365): store the low
32 bits of `value` at `FsInfo * BytesPerSec + 488`. -/
def SetNFreeClus (s : FsState) (value : Nat) : FsState :=
  { s with freeCount := value % 2 ^ 32 }

/-- `Filesys::UpdateClusCount(op)` (filesys.cpp:331-336). -/
def UpdateClusCount (s : FsState) (op : Nat → Nat) : FsState :=
  SetNFreeClus s (op (GetNFreeClus s))

/-- `Filesys::GetFATNxtFree()` (filesys.cpp:339-345): the 32-bit word at
`BytesPerSec * FsInfo + 492`. -/
def GetFATNxtFree (s : FsState) : Nat := s.nextFree

/-- `Filesys::SetFATNxtFree(cluster)` (filesys.cpp:348-351). -/
def SetFATNxtFree (s : FsState) (cluster : Nat) : FsState :=
  { s with nextFree := cluster % 2 ^ 32 }

/-- `Filesys::ZeroOutCluster(cluster)` (filesys.cpp:780-789): write the
byte 0 at each of the `BytesPerSec * SecPerClus` offsets starting at
`BytesPerSec * GetFirstSectorOfClus(cluster)`. -/
def ZeroOutCluster (s : FsState) (cluster : Nat) : FsState :=
  let start := s.info.BytesPerSec * s.info.GetFirstSectorOfClus cluster
  let len := s.info.BytesPerSec * s.info.SecPerClus
  { s with mem := fun q => if start ≤ q ∧ q < start + len then 0 else s.mem q }

/-- The inner `do … while (position < endOfFat)` search of
`Filesys::AllocateCluster` (filesys.cpp:733-742): test the entry at
`position` (even when `position ≥ endOfFat`, as the `do` body runs
once); stop with the position whose entry is 0, or advance while
`position + 1 < endOfFat`.  `fuel ≥ endOfFat + 1` makes the embedding
exact, since the loop runs at most `endOfFat - position + 1` times. -/
def scanFree (s : FsState) (position endOfFat fuel : Nat) : Option Nat :=
  match fuel with
  | 0 => none
  | fuel + 1 =>
    if GetNextClus s position = 0 then some position
    else if position + 1 < endOfFat then scanFree s (position + 1) endOfFat fuel
    else none

/-- The free-cluster search of `Filesys::AllocateCluster`
(filesys.cpp:718-755): start from the hint (from cluster 2 when the
hint is `0xFFFFFFFF`); on failure restart once from cluster 2 unless
the first pass already started there. -/
def allocSearch (s : FsState) : Option Nat :=
  let endOfFat := s.info.GetEndOfFat
  if GetFATNxtFree s = 0xFFFFFFFF then scanFree s 2 endOfFat (endOfFat + 1)
  else
    match scanFree s (GetFATNxtFree s) endOfFat (endOfFat + 1) with
    | some p => some p
    | none => scanFree s 2 endOfFat (endOfFat + 1)

/-- The chain walk of `Filesys::AllocateCluster` (filesys.cpp:760-767):
`while (1) { if ((templocat = GetNextClus(templocat)) >= FATEND) break;
location = templocat; }` — returns the terminal cluster of the chain
starting at `location`. -/
def walkToEnd (s : FsState) (location : Nat) (fuel : Nat) : Nat :=
  match fuel with
  | 0 => location
  | fuel + 1 =>
    let t := GetNextClus s location
    if FATEND ≤ t then location else walkToEnd s t fuel

/-- `Filesys::AllocateCluster(location)` (filesys.cpp:715-777): search
for a free cluster; on failure return 0 leaving the state unchanged.
On success append it to the chain of `location` when `location ≠ 0`,
mark it end-of-chain (`SetNextClus(position, 0xFFFFFFFF)`), store it as
the next-free hint, decrement the free count (`uint32_t` subtraction),
and zero its data bytes — in the order of the source. -/
def AllocateCluster (s : FsState) (location : Nat) (fuel : Nat) :
    FsState × Nat :=
  match allocSearch s with
  | none => (s, 0)
  | some position =>
    let s1 := if location ≠ 0 then
                SetNextClus s (walkToEnd s location fuel) position
              else s
    let s2 := SetNextClus s1 position 0xFFFFFFFF
    let s3 := SetFATNxtFree s2 position
    let s4 := UpdateClusCount s3 (fun value => (value + (2 ^ 32 - 1)) % 2 ^ 32)
    let s5 := ZeroOutCluster s4 position
    (s5, position)

/-- The cluster chain starting at `c` as the source walks it with
`GetNextClus`, ending at the first cluster whose entry is `≥ FATEND`;
`none` when the walk does not reach end-of-chain within `fuel` steps. -/
def chainList (s : FsState) (c : Nat) (fuel : Nat) : Option (List Nat) :=
  match fuel with
  | 0 => none
  | fuel + 1 =>
    if FATEND ≤ GetNextClus s c then some [c]
    else
      match chainList s (GetNextClus s c) fuel with
      | some l => some (c :: l)
      | none => none

/-- The chain-freeing `do … while (currCluster < FATEND)` loop shared by
`Filesys::Rm` (filesys.cpp:1512-1519) and `Filesys::Rmdir`
(filesys.cpp:1597-1603): for each chain link, read its successor, set
its entry to 0, and add one to the free count (`uint32_t` addition).
Returns the final state and the `count` of freed clusters (`Rmdir`
keeps no counter; the state component is the same). -/
def freeChainLoop (s : FsState) (currCluster count fuel : Nat) :
    FsState × Nat :=
  match fuel with
  | 0 => (s, count)
  | fuel + 1 =>
    let lastCluster := currCluster
    let next := GetNextClus s lastCluster
    let s1 := SetNextClus s lastCluster 0
    let s2 := UpdateClusCount s1 (fun value => (value + 1) % 2 ^ 32)
    if next < FATEND then freeChainLoop s2 next (count + 1) fuel
    else (s2, count + 1)

/-- The decoding of one 32-byte directory slot at absolute offset `loc`,
as `Filesys::GetFileList` reads it (filesys.cpp:195-208): 11 name bytes
at `loc` into a NUL-terminated `char[12]` buffer, `attr` at `loc+11`,
`hi` at `loc+20` (2 bytes LE), `lo` at `loc+26` (2 bytes LE), `size` at
`loc+28` (4 bytes LE).  The `FileEntry` constructor builds `name` as a
`std::string` from the `char*` buffer, which truncates at the first NUL
byte, sets `clus = lo | hi << 16` and zero-initialises `wrtTime`,
`wrtDate`, `openInfo`. -/
def readEntryAt (s : FsState) (loc : Nat) : FileEntry :=
  let lo := readBytesLE s.mem (loc + 26) 2
  let hi := readBytesLE s.mem (loc + 20) 2
  { name := ((List.range 11).map
      (fun i => Char.ofNat (readBytesLE s.mem (loc + i) 1))).takeWhile
      (fun c => c ≠ Char.ofNat 0)
    attr := readBytesLE s.mem (loc + 11) 1
    lo := lo
    hi := hi
    wrtTime := 0
    wrtDate := 0
    size := readBytesLE s.mem (loc + 28) 4
    clus := decodeClus lo hi
    entryLoc := loc
    openInfo := 0 }

/-- `Filesys::SaveFileEntry(entry)` (filesys.cpp:618-640): set the write
time from the current local time, then write name (11 bytes), attr,
zeros at offsets 13, 14..15, 16..17, 18..19, then `hi`, `wrtTime`,
`wrtDate`, `lo`, `size` at their fixed offsets.  The local-time fields
are parameters (the program takes them from the clock). -/
def SaveFileEntry (s : FsState) (e : FileEntry)
    (mday mon year sec min hour : Nat) : FsState :=
  let loc := e.entryLoc
  let t := SetCurrentTime mday mon year sec min hour
  let m1 := writeListLE s.mem
    ((List.range 11).map (fun i => (e.name.getD i (Char.ofNat 0)).toNat)) loc 1
  let m2 := writeBytesLE m1 (loc + 11) 1 e.attr
  let m3 := writeBytesLE m2 (loc + 13) 1 0
  let m4 := writeBytesLE m3 (loc + 14) 2 0
  let m5 := writeBytesLE m4 (loc + 16) 2 0
  let m6 := writeBytesLE m5 (loc + 18) 2 0
  let m7 := writeBytesLE m6 (loc + 20) 2 e.hi
  let m8 := writeBytesLE m7 (loc + 22) 2 t.1
  let m9 := writeBytesLE m8 (loc + 24) 2 t.2
  let m10 := writeBytesLE m9 (loc + 26) 2 e.lo
  let m11 := writeBytesLE m10 (loc + 28) 4 e.size
  { s with mem := m11 }

/-- `e.name[0] = 0xe5` as performed by `Rm` (filesys.cpp:1522) and
`Rmdir` (filesys.cpp:1589). -/
def markDeleted (e : FileEntry) : FileEntry :=
  { e with name := e.name.set 0 (Char.ofNat 0xE5) }

/-- The body of the `Filesys::Rm` entry loop for the entry matching the
requested name (filesys.cpp:1500-1524): skip directories (`continue`);
otherwise, when `clus ≠ 0`, free the whole chain (incrementing the free
count per link), then tombstone the name byte and resave the entry. -/
def RmOnEntry (s : FsState) (e : FileEntry)
    (mday mon year sec min hour fuel : Nat) : FsState :=
  if e.attr &&& DIRECT = DIRECT then s
  else
    let s1 := if e.clus ≠ 0 then (freeChainLoop s e.clus 0 fuel).1 else s
    SaveFileEntry s1 (markDeleted e) mday mon year sec min hour

/-- The removal step of `Filesys::Rmdir` for the located directory entry
(filesys.cpp:1589-1604): tombstone the name byte, resave, then free the
chain when `clus ≠ 0`. -/
def RmdirOnEntry (s : FsState) (e : FileEntry)
    (mday mon year sec min hour fuel : Nat) : FsState :=
  let s1 := SaveFileEntry s (markDeleted e) mday mon year sec min hour
  if e.clus ≠ 0 then (freeChainLoop s1 e.clus 0 fuel).1 else s1

/-- The per-cluster slot scan of `Filesys::GetFileList`
(filesys.cpp:188-211): `BytesPerSec * SecPerClus / 32` slots starting at
`BytesPerSec * GetFirstSectorOfClus(cluster)`; skip long-name entries;
keep allocated slots when `getDealloc` is false, and exactly the others
when it is true — the test reads `name[0]` from the raw buffer (the
slot's first byte), before the `FileEntry` string is constructed. -/
def clusterEntries (s : FsState) (cluster : Nat) (getDealloc : Bool) :
    List FileEntry :=
  let entries := s.info.BytesPerSec * s.info.SecPerClus / 32
  let location := s.info.BytesPerSec * s.info.GetFirstSectorOfClus cluster
  (List.range entries).filterMap (fun i =>
    let e := readEntryAt s (location + 32 * i)
    if e.attr &&& LONG = LONG then none
    else
      let b0 := readBytesLE s.mem (location + 32 * i) 1
      if (¬getDealloc ∧ b0 ≠ 0 ∧ b0 ≠ DEALLOC) ∨
         (getDealloc ∧ (b0 = 0 ∨ b0 = DEALLOC)) then some e
      else none)

/-- `Filesys::GetFileList(cluster, getDealloc)` (filesys.cpp:170-216):
scan the slots of each cluster of the chain, following
`GetNextClus` while it stays below `FATEND` (`do … while`). -/
def GetFileList (s : FsState) (cluster : Nat) (getDealloc : Bool)
    (fuel : Nat) : List FileEntry :=
  match fuel with
  | 0 => []
  | fuel + 1 =>
    clusterEntries s cluster getDealloc ++
      (if GetNextClus s cluster < FATEND then
        GetFileList s (GetNextClus s cluster) getDealloc fuel
      else [])

/-- The `find_first_of` loop of `Filesys::ParseAddress`
(filesys.cpp:496-508): split on `/`, dropping empty segments; `cur`
accumulates the current segment in reverse. -/
def splitSegsAux (cs : List Char) (cur : List Char) : List (List Char) :=
  match cs with
  | [] => if cur ≠ [] then [cur.reverse] else []
  | c :: rest =>
    if c = '/' then (if cur ≠ [] then [cur.reverse] else []) ++ splitSegsAux rest []
    else splitSegsAux rest (c :: cur)

/-- `Filesys::ParseAddress(add)` (filesys.cpp:479-512): lower-case the
input; a leading `/` becomes a first segment `/` by itself; the rest is
split on `/` with empty segments dropped. -/
def ParseAddress (add : List Char) : List (List Char) :=
  if add.length = 0 then []
  else
    let low := add.map Char.toLower
    if low.getD 0 (Char.ofNat 0) = '/' then ['/'] :: splitSegsAux (low.drop 1) []
    else splitSegsAux low []

/-- The segment loop of `Filesys::NavToDir` (filesys.cpp:531-574):
iterate over the parsed segments with counter `i`, stopping at `end_`;
segment `/` at `i = 0` jumps to the root; `.` in the root directory is
skipped; otherwise search the current directory's allocated entries for
a directory whose display name matches, stepping into it (a stored
cluster 0 under `..` means the root); throw when no entry matches. -/
def navLoop (s : FsState) (items : List (List Char)) (i end_ curr fuel : Nat) :
    Except Unit Nat :=
  match items with
  | [] => .ok curr
  | item :: rest =>
    if i = end_ then .ok curr
    else
      let next : Except Unit Nat :=
        if i = 0 ∧ item = ['/'] then .ok s.info.RootClus
        else if item = ['.'] ∧ curr = s.info.RootClus then .ok curr
        else
          match (GetFileList s curr false fuel).find?
              (fun e => e.GetShortName == item && e.IsDir) with
          | some e => .ok (if e.clus = 0 ∧ item = ['.', '.'] then s.info.RootClus
                           else e.clus)
          | none => .error ()
      match next with
      | .error u => .error u
      | .ok c => navLoop s rest (i + 1) end_ c fuel

/-- `Filesys::NavToDir(list, start, end)` (filesys.cpp:517-576).  The
source guards with `start - end == 0` on `size_t` values, which (both
being below `2 ^ 64`) holds exactly when `start = end`; an empty list
throws; otherwise run the segment loop from `cwd_`. -/
def NavToDir (s : FsState) (list : List (List Char)) (start end_ fuel : Nat) :
    Except Unit Nat :=
  if start = end_ then .ok s.cwd
  else if list.length = 0 then .error ()
  else navLoop s list start end_ s.cwd fuel

/-- The `while (curClus != RootClus)` loop of `Filesys::GenPathName`
(filesys.cpp:587-612), with the per-entry `for` embedded as a fold over
the directory listing; the loop state is `(prevClus, foundClus, name)`
and `curClus` is replaced by `foundClus` at the top of each iteration. -/
def genPathLoop (s : FsState) (curClus prevClus foundClus : Nat)
    (name : List Char) (fuel lfuel : Nat) : List Char :=
  match fuel with
  | 0 => name
  | fuel + 1 =>
    if curClus = s.info.RootClus then name
    else
      let cur := foundClus
      let step := (GetFileList s cur false lfuel).foldl
        (fun (acc : Nat × Nat × List Char) e =>
          let fd1 := if e.GetShortName = ['.', '.'] then
                       (if e.clus = 0 then s.info.RootClus else e.clus)
                     else acc.2.1
          if acc.1 = e.clus ∧ e.GetShortName ≠ ['.'] then
            (cur, fd1,
              if acc.2.2.length = 0 then e.GetShortName
              else e.GetShortName ++ '/' :: acc.2.2)
          else (acc.1, fd1, acc.2.2))
        (prevClus, foundClus, name)
      genPathLoop s cur step.1 step.2.1 step.2.2 fuel lfuel

/-- `Filesys::GenPathName(clus)` (filesys.cpp:579-615): run the loop
from `curClus = cwd_`, `prevClus = foundClus = clus`, and prepend `/`. -/
def GenPathName (s : FsState) (clus : Nat) (fuel lfuel : Nat) : List Char :=
  '/' :: genPathLoop s s.cwd clus clus [] fuel lfuel

/-- `Filesys::Cd(argv)` (filesys.cpp:909-942): no argument means `/`;
more than one argument prints usage and returns; otherwise parse the
target, navigate from index 0 to the segment count, and only on success
assign `cwd_` and recompute `location_` (navigation failure is caught
and leaves the state untouched). -/
def Cd (s : FsState) (argv : List (List Char)) (fuel : Nat) : FsState :=
  let target : Option (List Char) :=
    if argv.length < 1 then some ['/']
    else if argv.length = 1 then some (argv.getD 0 [])
    else none
  match target with
  | none => s
  | some tgt =>
    let list := ParseAddress tgt
    match NavToDir s list 0 list.length fuel with
    | .error _ => s
    | .ok c =>
      let s1 := { s with cwd := c }
      { s1 with location := GenPathName s1 c fuel fuel }

/-- `std::string::npos` as a `size_t` value. -/
def NPOS : Nat := 2 ^ 64 - 1

/-- `name.find_first_of(set, 0)`: index of the first character of `cs`
belonging to `set`, or `NPOS`. -/
def findFirstOf (cs : List Char) (set : List Char) : Nat :=
  match cs.findIdx? (fun c => set.contains c) with
  | some i => i
  | none => NPOS

/-- The rejected-character set of `Filesys::ValidateFileName`
(filesys.cpp:645): the C++ literal `"/ \"*+`-;:<>=?"`, i.e. slash,
space, double quote (34), asterisk, plus, backquote (96), minus,
semicolon, colon, less, greater, equals, question mark.  Note that it
contains no backslash. -/
def invalidNameChars : List Char :=
  ['/', ' ', Char.ofNat 34, '*', '+', Char.ofNat 96, '-', ';', ':', '<', '>', '=', '?']

/-- `Filesys::ValidateFileName(name)` (filesys.cpp:643-710).  All
`size_t` arithmetic of the source is kept: `name.length() - 1` is
`(name.length + NPOS) % 2 ^ 64`, which for the empty string equals
`NPOS` and therefore compares equal to an absent dot. -/
def ValidateFileName (name : List Char) : Except Unit (List Char) :=
  let invalidChars := findFirstOf name invalidNameChars
  if invalidChars ≠ NPOS then .error ()
  else
    let dotPos := findFirstOf name ['.']
    if dotPos = 0 ∨ dotPos = (name.length + NPOS) % 2 ^ 64 then .error ()
    else if dotPos ≠ NPOS then
      if 3 < name.length - (dotPos + 1) then .error ()
      else
        let pfix := name.drop (dotPos + 1)
        let base := name.take dotPos
        .ok ((List.range 8).map (fun i => if base.length ≤ i then ' ' else base.getD i ' ')
          ++ (List.range 3).map (fun i => if pfix.length ≤ i then ' ' else pfix.getD i ' '))
    else
      if 8 < name.length then .error ()
      else .ok ((List.range 11).map (fun i => if name.length ≤ i then ' ' else name.getD i ' '))

/-- Single-value `ReadValue` (`len = 1`), as `Validate` uses it. -/
def readVal (m : Mem) (size pos width : Nat) : Except Unit Nat :=
  (ReadValue m size 1 pos width).map (fun l => l.headD 0)

/-- `Filesys::Validate()` (filesys.cpp:81-137): check the signature at
510/511; read the boot-sector fields at their offsets; reject
`BytesPerSec ∉ {512,1024,2048,4096}`, `RootEntCnt ≠ 0`,
`SecPerClus ∉ {1,2,4,16,32,64,128}` (8 is absent from the source's
test), `TotSec = 0`; derive `RootDirSector`, `FATSz`, `FirstDataSec`;
reject `FATSz16 ≠ 0`; on success `cwd_ = RootClus`, `location_ = "/"`.
`error_` is the constructor's open/stat failure flag. -/
def Validate (m : Mem) (size : Nat) (error_ : Bool) :
    Except Unit (Fat32Info × Nat × List Char) := do
  if error_ then throw ()
  let sig ← ReadValue m size 2 510 1
  if sig.getD 0 0 ≠ 0x55 ∨ sig.getD 1 0 ≠ 0xaa then throw ()
  let bps ← readVal m size 11 2
  let rec_ ← readVal m size 17 2
  let fsz16 ← readVal m size 22 2
  let fsz32 ← readVal m size 36 4
  let rsvd ← readVal m size 14 2
  let nfats ← readVal m size 16 1
  let spc ← readVal m size 13 1
  let rootc ← readVal m size 44 4
  let fsinfo ← readVal m size 48 2
  let totsec ← readVal m size 32 4
  if bps ≠ 512 ∧ bps ≠ 1024 ∧ bps ≠ 2048 ∧ bps ≠ 4096 then throw ()
  if rec_ ≠ 0 then throw ()
  if spc ≠ 1 ∧ spc ≠ 2 ∧ spc ≠ 4 ∧ spc ≠ 16 ∧ spc ≠ 32 ∧ spc ≠ 64 ∧ spc ≠ 128 then
    throw ()
  if totsec = 0 then throw ()
  let rootDirSector := (rec_ * 32 + (bps - 1)) / bps
  let fatsz := if fsz16 ≠ 0 then fsz16 else fsz32
  let firstDataSec := rsvd + nfats * fatsz + rootDirSector
  if fsz16 ≠ 0 then throw ()
  return ({ BytesPerSec := bps, RootEntCnt := rec_, RootDirSector := rootDirSector,
            FATSz16 := fsz16, FATSz32 := fsz32, FATSz := fatsz, RsvdSecCnt := rsvd,
            NumFats := nfats, SecPerClus := spc, FirstDataSec := firstDataSec,
            RootClus := rootc, FsInfo := fsinfo, TotSec := totsec }, rootc, ['/'])

/-- `true` exactly on `Except.error`, for stating success/failure of the
embedded fallible operations. -/
def isErr {α : Type} (r : Except Unit α) : Bool :=
  match r with
  | .error _ => true
  | .ok _ => false

/-- The 32-bit little-endian word at `p` of the memory produced by a
fallible write (0 when the write failed). -/
def wordAt (r : Except Unit Mem) (p : Nat) : Nat :=
  match r with
  | .error _ => 0
  | .ok m => readBytesLE m p 4

/-- Geometry for the `SetNextClus` evaluation: 4-byte sectors, one
reserved sector, two FAT copies of 4 sectors each, so the FAT entry of
cluster 2 lives at byte 12 in copy 0 and at byte 28 in copy 1. -/
def c1Info : Fat32Info :=
  { BytesPerSec := 4, RootEntCnt := 0, RootDirSector := 0, FATSz16 := 0,
    FATSz32 := 4, FATSz := 4, RsvdSecCnt := 1, NumFats := 2, SecPerClus := 1,
    FirstDataSec := 0, RootClus := 2, FsInfo := 0, TotSec := 0 }

/-- Image bytes for the `SetNextClus` evaluation: the FAT word of
cluster 2 is `0xF0000005` in copy 0 and `0xA0000001` in copy 1, so both
copies carry a non-zero upper nibble. -/
def c1Mem : Mem := fun q =>
  if q = 12 then 5 else if q = 15 then 0xF0
  else if q = 28 then 1 else if q = 31 then 0xA0 else 0

/-- A boot sector whose checked fields are all accepted except that
`SecPerClus = 8`: signature `0x55 0xAA`, `BytesPerSec = 512`,
`RootEntCnt = 0`, `FATSz16 = 0`, `TotSec = 100` (byte 32), plus
`RsvdSecCnt = 1`, `NumFats = 1`, `FATSz32 = 1`, `RootClus = 2`,
`FsInfo = 1`. -/
def bootImage : Mem := fun q =>
  if q = 510 then 0x55 else if q = 511 then 0xaa
  else if q = 12 then 2
  else if q = 13 then 8
  else if q = 14 then 1
  else if q = 16 then 1
  else if q = 32 then 100
  else if q = 36 then 1
  else if q = 44 then 2
  else if q = 48 then 1
  else 0

/-- The same boot sector with `SecPerClus = 16` instead of 8. -/
def bootImage16 : Mem := fun q => if q = 13 then 16 else bootImage q

/-- A `FileEntry` with every field zero, for evaluating `SetClus`. -/
def eDefault : FileEntry :=
  { name := [], attr := 0, lo := 0, hi := 0, wrtTime := 0, wrtDate := 0,
    size := 0, clus := 0, entryLoc := 0, openInfo := 0 }

/-- State for the failing-`cd` evaluation: 32-byte sectors (one
directory slot per cluster), root cluster 2, every data byte 0 (so the
root directory lists no entries) and every FAT entry end-of-chain. -/
def s9 : FsState :=
  { info := { BytesPerSec := 32, RootEntCnt := 0, RootDirSector := 0,
              FATSz16 := 0, FATSz32 := 1, FATSz := 1, RsvdSecCnt := 1,
              NumFats := 1, SecPerClus := 1, FirstDataSec := 2, RootClus := 2,
              FsInfo := 1, TotSec := 10 },
    fat := fun _ => 0x0FFFFFF8, freeCount := 5, nextFree := 3,
    mem := fun _ => 0, cwd := 2, location := ['/'] }

/-- State for the `rm` free-count evaluation: the file chain is
`5 → 6 → end`, ten clusters recorded free. -/
def s7 : FsState :=
  { info := { BytesPerSec := 4, RootEntCnt := 0, RootDirSector := 0,
              FATSz16 := 0, FATSz32 := 1, FATSz := 1, RsvdSecCnt := 1,
              NumFats := 1, SecPerClus := 1, FirstDataSec := 4, RootClus := 2,
              FsInfo := 1, TotSec := 20 },
    fat := fun n => if n = 5 then 6 else if n = 6 then 0x0FFFFFFF else 0,
    freeCount := 10, nextFree := 1,
    mem := fun _ => 0, cwd := 2, location := ['/'] }

/-- A plain file entry whose chain starts at cluster 5, for `s7`. -/
def e7 : FileEntry :=
  { name := List.replicate 11 'a', attr := 0, lo := 5, hi := 0, wrtTime := 0,
    wrtDate := 0, size := 8, clus := 5, entryLoc := 40, openInfo := 0 }

/-- State for the allocation evaluation: chain `5 → end`, clusters 2
and 4 allocated, cluster 3 free, no next-free hint, ten clusters
recorded free, every data byte 9. -/
def s2w : FsState :=
  { info := { BytesPerSec := 4, RootEntCnt := 0, RootDirSector := 0,
              FATSz16 := 0, FATSz32 := 1, FATSz := 1, RsvdSecCnt := 1,
              NumFats := 1, SecPerClus := 1, FirstDataSec := 4, RootClus := 2,
              FsInfo := 1, TotSec := 20 },
    fat := fun n => if n = 5 then 0x0FFFFFF8 else if n = 3 then 0 else 1,
    freeCount := 10, nextFree := 0xFFFFFFFF,
    mem := fun _ => 9, cwd := 2, location := ['/'] }

/-- State for the empty-file `rm` evaluation: every data byte 0. -/
def s10 : FsState :=
  { info := { BytesPerSec := 4, RootEntCnt := 0, RootDirSector := 0,
              FATSz16 := 0, FATSz32 := 1, FATSz := 1, RsvdSecCnt := 1,
              NumFats := 1, SecPerClus := 1, FirstDataSec := 4, RootClus := 2,
              FsInfo := 1, TotSec := 20 },
    fat := fun n => if n = 5 then 6 else 0, freeCount := 10, nextFree := 1,
    mem := fun _ => 0, cwd := 2, location := ['/'] }

/-- An empty-file entry (`clus = 0`, as `create` produces), for `s10`. -/
def e10 : FileEntry :=
  { name := List.replicate 11 'b', attr := 0, lo := 0, hi := 0, wrtTime := 0,
    wrtDate := 0, size := 0, clus := 0, entryLoc := 8, openInfo := 0 }

/-- State for the tombstone-byte evaluation: 32-byte sectors, so the
current directory (cluster 2, its chain a single end-of-chain cluster)
holds exactly one 32-byte slot starting at byte 64.  That slot is an
in-use plain file named `B` (first name byte 0x42, then ten spaces,
attr 0, cluster 0, size 0) whose create-time-tenth byte (offset 13 of
the slot, byte 77) is 1.  A second slot at byte 96 (cluster 3's slot)
is an in-use directory named `D` (attr 0x10, first cluster 4, whose
chain is a single end-of-chain cluster) with create-time-tenth 2. -/
def s3c : FsState :=
  { info := { BytesPerSec := 32, RootEntCnt := 0, RootDirSector := 0,
              FATSz16 := 0, FATSz32 := 1, FATSz := 1, RsvdSecCnt := 1,
              NumFats := 1, SecPerClus := 1, FirstDataSec := 2, RootClus := 2,
              FsInfo := 1, TotSec := 10 },
    fat := fun _ => 0x0FFFFFF8, freeCount := 5, nextFree := 3,
    mem := fun q =>
      if q = 64 then 0x42
      else if 65 ≤ q ∧ q ≤ 74 then 0x20
      else if q = 77 then 1
      else if q = 96 then 0x44
      else if 97 ≤ q ∧ q ≤ 106 then 0x20
      else if q = 107 then 0x10
      else if q = 109 then 2
      else if q = 122 then 4
      else 0,
    cwd := 2, location := ['/'] }


/-- The effect claimed (as amended) for a removed directory entry whose
32 bytes start at `loc`: first name byte `0xE5`; bytes 1..12 (rest of
the name, attr, NTRes) preserved; the create/access fields 13..19
zeroed; the write time/date 22..25 set from the current local time; the
cluster halves and size bytes 20..21 and 26..31 preserved. -/
def TombstoneSpec (s : FsState) (loc mday mon year sec min hour : Nat)
    (s2 : FsState) : Prop :=
  s2.mem loc = 0xE5 ∧
  (∀ j, 1 ≤ j → j ≤ 12 → s2.mem (loc + j) = s.mem (loc + j)) ∧
  (∀ j, 13 ≤ j → j ≤ 19 → s2.mem (loc + j) = 0) ∧
  s2.mem (loc + 20) = s.mem (loc + 20) ∧
  s2.mem (loc + 21) = s.mem (loc + 21) ∧
  s2.mem (loc + 22) = (SetCurrentTime mday mon year sec min hour).1 % 256 ∧
  s2.mem (loc + 23) =
    ((SetCurrentTime mday mon year sec min hour).1 >>> 8) % 256 ∧
  s2.mem (loc + 24) = (SetCurrentTime mday mon year sec min hour).2 % 256 ∧
  s2.mem (loc + 25) =
    ((SetCurrentTime mday mon year sec min hour).2 >>> 8) % 256 ∧
  (∀ j, 26 ≤ j → j ≤ 31 → s2.mem (loc + j) = s.mem (loc + j))

lemma disj_lor_eq_add (a : Nat) : ∀ b, a &&& b = 0 → a ||| b = a + b := by
  induction a using Nat.binaryRec with
  | z => simp
  | f c n ih =>
    intro b
    induction b using Nat.binaryRec with
    | z => simp
    | f d m _ =>
      intro h
      rw [Nat.land_bit, Nat.bit_eq_zero_iff] at h
      rw [Nat.lor_bit, Nat.bit_val, Nat.bit_val, Nat.bit_val, ih m h.1]
      cases c <;> cases d <;> simp_all <;> omega

lemma lor_shiftLeft_eq_add (a b k : Nat) (h : a < 2 ^ k) :
    a ||| (b <<< k) = a + 2 ^ k * b := by
  have h1 : a &&& (b <<< k) = 0 := by
    apply Nat.eq_of_testBit_eq
    intro i
    simp only [Nat.testBit_land, Nat.zero_testBit, Bool.and_eq_false_iff]
    rcases lt_or_le i k with hik | hik
    · right
      simp [Nat.testBit_shiftLeft, hik]
    · left
      exact Nat.testBit_lt_two_pow
        (lt_of_lt_of_le h (Nat.pow_le_pow_right (by norm_num) hik))
  rw [disj_lor_eq_add _ _ h1, Nat.shiftLeft_eq, Nat.mul_comm]

lemma readBytesLE_one (m : Mem) (p : Nat) : readBytesLE m p 1 = m p := by
  simp [readBytesLE, List.range_succ]

lemma readBytesLE_two (m : Mem) (p : Nat) (h0 : m p < 256) :
    readBytesLE m p 2 = m p + 256 * m (p + 1) := by
  simp only [readBytesLE, List.range_succ, List.range_zero, List.nil_append,
    List.foldl_cons, List.foldl_nil, List.foldl_append]
  rw [Nat.zero_or, Nat.shiftLeft_zero, Nat.add_zero]
  exact lor_shiftLeft_eq_add _ _ 8 h0

lemma readBytesLE_four (m : Mem) (p : Nat) (h0 : m p < 256)
    (h1 : m (p + 1) < 256) (h2 : m (p + 2) < 256) :
    readBytesLE m p 4 =
      m p + 256 * (m (p + 1) + 256 * (m (p + 2) + 256 * m (p + 3))) := by
  simp only [readBytesLE, List.range_succ, List.range_zero, List.nil_append,
    List.foldl_cons, List.foldl_nil, List.foldl_append]
  rw [Nat.zero_or, Nat.shiftLeft_zero, Nat.add_zero]
  rw [lor_shiftLeft_eq_add _ _ 8 h0]
  rw [lor_shiftLeft_eq_add _ _ 16 (by omega)]
  rw [lor_shiftLeft_eq_add _ _ 24 (by omega)]
  ring

lemma writeBytesLE_out (m : Mem) (pos width val q : Nat)
    (h : q < pos ∨ pos + width ≤ q) : writeBytesLE m pos width val q = m q := by
  unfold writeBytesLE
  rw [if_neg]
  omega

lemma writeBytesLE_in (m : Mem) (pos width val q : Nat)
    (h1 : pos ≤ q) (h2 : q < pos + width) :
    writeBytesLE m pos width val q = (val >>> (8 * (q - pos))) % 256 := by
  unfold writeBytesLE
  rw [if_pos ⟨h1, h2⟩]

lemma writeListLE_out (vals : List Nat) : ∀ (m : Mem) (pos width q : Nat),
    q < pos ∨ pos + width * vals.length ≤ q →
    writeListLE m vals pos width q = m q := by
  induction vals with
  | nil => intro m pos width q _; rfl
  | cons v rest ih =>
    intro m pos width q h
    simp only [List.length_cons] at h
    have hexp : width * (rest.length + 1) = width * rest.length + width := by ring
    rw [writeListLE, ih _ _ _ _ (by omega), writeBytesLE_out _ _ _ _ _ (by omega)]

lemma writeListLE_w1_at (vals : List Nat) : ∀ (m : Mem) (pos j : Nat),
    j < vals.length →
    writeListLE m vals pos 1 (pos + j) = vals.getD j 0 % 256 := by
  induction vals with
  | nil => intro m pos j h; simp at h
  | cons v rest ih =>
    intro m pos j h
    match j with
    | 0 =>
      rw [writeListLE, writeListLE_out _ _ _ _ _ (by omega)]
      rw [writeBytesLE_in _ _ _ _ _ (by omega) (by omega)]
      simp
    | j + 1 =>
      rw [writeListLE]
      have := ih (writeBytesLE m pos 1 v) (pos + 1) j (by simpa using h)
      rw [show pos + (j + 1) = pos + 1 + j by omega, this]
      rfl

/-- **C1** (code_bug evaluation).  The claim states that `SetNextClus`
rewrites only the low 28 bits and leaves the upper 4 bits of each FAT
copy's 32-bit word unchanged.  The source computes the merged word
`entry = (entry & ~FATMASK) | (value & FATMASK)` but then writes
`value` (already masked) instead of `entry`
(filesys.cpp:321-327), so the upper nibble is zeroed.  Evaluated at
cluster 2 with value 7 on `c1Mem`: copy 0's word drops its nibble `0xF`
and copy 1 its nibble `0xA`; both end at exactly `7`. -/
theorem C1_setNextClus_clears_high_nibble :
    readBytesLE c1Mem 12 4 / 2 ^ 28 = 0xF ∧
    readBytesLE c1Mem 28 4 / 2 ^ 28 = 0xA ∧
    wordAt (SetNextClusImage c1Info c1Mem 64 2 7) 12 = 7 ∧
    wordAt (SetNextClusImage c1Info c1Mem 64 2 7) 28 = 7 ∧
    wordAt (SetNextClusImage c1Info c1Mem 64 2 7) 12 / 2 ^ 28 = 0 ∧
    wordAt (SetNextClusImage c1Info c1Mem 64 2 7) 28 / 2 ^ 28 = 0 := by
  decide

/-- **C4** (code_bug evaluation).  The claim states that mount succeeds
for every `SecPerClus ∈ {1,2,4,8,16,32,64,128}` once the other checked
fields are accepted, but the source's test (filesys.cpp:111-118) omits
8 from the accepted enumeration: `bootImage` (which differs from an
accepted image only by `SecPerClus = 8`) is rejected, while the same
image with `SecPerClus = 16` mounts. -/
theorem C4_validate_rejects_secPerClus8 :
    isErr (Validate bootImage 1024 false) = true ∧
    isErr (Validate bootImage16 1024 false) = false := by
  decide

/-- **C5 counterexample.**  At `image_size = 4`, `offset = 0`,
`width = 4` the claim demands success (`offset + width ≤ image_size`),
but the source's `width * len + pos >= filesys_size_` test
(filesys.cpp:223, 242) rejects the access: both primitives fail. -/
theorem C5_counterexample :
    0 + 4 ≤ 4 ∧
    isErr (ReadValue (fun _ => 0) 4 1 0 4) = true ∧
    isErr (WriteValue (fun _ => 0) 4 [0] 0 4) = true := by
  decide

/-- **C5 amended.**  For every width in {1, 2, 4}, the single-value
primitives `ReadValue` and `WriteValue` succeed exactly when
`offset + width < image_size` (not `≤`): the source's `>=` comparison
also rejects an access that ends exactly at the image size. -/
theorem C5_amended_bounds (m : Mem) (size pos width x : Nat)
    (hw : width = 1 ∨ width = 2 ∨ width = 4) :
    (isErr (ReadValue m size 1 pos width) = false ↔ pos + width < size) ∧
    (isErr (WriteValue m size [x] pos width) = false ↔ pos + width < size) := by
  unfold ReadValue WriteValue
  constructor <;> (split <;> simp_all [isErr] <;> omega)

/-- **C5 amended, witness** at `image_size = 10`, `offset = 3`,
`width = 2`. -/
theorem C5_amended_bounds_witness :
    ((2 : Nat) = 1 ∨ (2 : Nat) = 2 ∨ (2 : Nat) = 4) ∧
    ((isErr (ReadValue (fun _ => 0) 10 1 3 2) = false ↔ 3 + 2 < 10) ∧
     (isErr (WriteValue (fun _ => 0) 10 [7] 3 2) = false ↔ 3 + 2 < 10)) :=
  ⟨by decide, C5_amended_bounds (fun _ => 0) 10 3 2 7 (by decide)⟩

/-- **C6** (code_bug evaluation).  The claim states that after
`SetClus(c)` the halves satisfy `(hi << 16) | lo = c` for every
`c < 2 ^ 28`.  The source shifts by 4 instead of 16
(filesys.cpp:473), so at `c = 65536` the stored halves are
`hi = 4096`, `lo = 0`, which decode to `0x10000000 ≠ 65536`. -/
theorem C6_setClus_decode_fails :
    65536 < 2 ^ 28 ∧
    (eDefault.SetClus 65536).hi = 4096 ∧
    (eDefault.SetClus 65536).lo = 0 ∧
    decodeClus (eDefault.SetClus 65536).lo (eDefault.SetClus 65536).hi =
      0x10000000 ∧
    (0x10000000 : Nat) ≠ 65536 := by
  decide

/-- **C9.**  When navigation fails on the parsed path (any segment does
not resolve to an existing directory, so `NavToDir` throws), `Cd`
catches the exception and leaves both the current-working-directory
cluster and the cached location string unchanged
(filesys.cpp:930-941). -/
theorem C9_cd_failure_preserves_state (s : FsState) (target : List Char)
    (fuel : Nat)
    (hfail : NavToDir s (ParseAddress target) 0 (ParseAddress target).length
      fuel = .error ()) :
    (Cd s [target] fuel).cwd = s.cwd ∧
    (Cd s [target] fuel).location = s.location := by
  simp [Cd, hfail]

/-- **C9 witness**: on `s9` (whose root directory is empty) `cd foo`
fails to navigate and preserves `cwd` and `location`. -/
theorem C9_cd_failure_preserves_state_witness :
    NavToDir s9 (ParseAddress ['f', 'o', 'o']) 0
      (ParseAddress ['f', 'o', 'o']).length 1 = .error () ∧
    ((Cd s9 [['f', 'o', 'o']] 1).cwd = s9.cwd ∧
     (Cd s9 [['f', 'o', 'o']] 1).location = s9.location) :=
  ⟨rfl, C9_cd_failure_preserves_state s9 ['f', 'o', 'o'] 1 rfl⟩

lemma chainList_ne_nil {s : FsState} {c fuel : Nat} {l : List Nat}
    (h : chainList s c fuel = some l) : l ≠ [] := by
  match fuel with
  | 0 => simp [chainList] at h
  | f + 1 =>
    rw [chainList] at h
    split at h
    · simp only [Option.some_inj] at h
      subst h
      simp
    · split at h
      · simp only [Option.some_inj] at h
        subst h
        simp
      · simp at h

lemma chainList_head {s : FsState} {c fuel : Nat} {l : List Nat}
    (h : chainList s c fuel = some l) : ∃ t, l = c :: t := by
  match fuel with
  | 0 => simp [chainList] at h
  | f + 1 =>
    rw [chainList] at h
    split at h
    · simp only [Option.some_inj] at h
      exact ⟨[], h.symm⟩
    · split at h
      · simp only [Option.some_inj] at h
        exact ⟨_, h.symm⟩
      · simp_all

lemma chainList_det {s : FsState} : ∀ {f1 : Nat} {f2 c : Nat} {l1 l2 : List Nat},
    chainList s c f1 = some l1 → chainList s c f2 = some l2 → l1 = l2 := by
  intro f1
  induction f1 with
  | zero => intro f2 c l1 l2 h1 _; simp [chainList] at h1
  | succ f ih =>
    intro f2 c l1 l2 h1 h2
    match f2 with
    | 0 => simp [chainList] at h2
    | f2 + 1 =>
      rw [chainList] at h1 h2
      by_cases hc : FATEND ≤ GetNextClus s c
      · rw [if_pos hc] at h1 h2
        simp_all
      · rw [if_neg hc] at h1 h2
        cases hh1 : chainList s (GetNextClus s c) f with
        | none => rw [hh1] at h1; simp at h1
        | some t1 =>
          cases hh2 : chainList s (GetNextClus s c) f2 with
          | none => rw [hh2] at h2; simp at h2
          | some t2 =>
            rw [hh1] at h1
            rw [hh2] at h2
            have := ih hh1 hh2
            simp_all

lemma chainList_mem_suffix {s : FsState} : ∀ {f c : Nat} {l : List Nat}
    {x : Nat}, chainList s c f = some l → x ∈ l →
    ∃ f' t pre, chainList s x f' = some t ∧ l = pre ++ t := by
  intro f
  induction f with
  | zero => intro c l x h _; simp [chainList] at h
  | succ f ih =>
    intro c l x h hx
    rw [chainList] at h
    split at h
    · refine ⟨f + 1, l, [], ?_, by simp⟩
      have hl : l = [c] := by simp_all
      have hxc : x = c := by simp_all
      rw [hxc, hl, chainList, if_pos (by assumption)]
    · rename_i hc
      cases hh : chainList s (GetNextClus s c) f with
      | none => rw [hh] at h; simp at h
      | some t =>
        rw [hh] at h
        have hl : l = c :: t := by simp_all
        subst hl
        rcases List.mem_cons.mp hx with hxc | hxt
        · subst hxc
          exact ⟨f + 1, x :: t, [], by rw [chainList, if_neg hc, hh], by simp⟩
        · obtain ⟨f', t', pre, ht', hsplit⟩ := ih hh hxt
          exact ⟨f', t', c :: pre, ht', by simp [hsplit]⟩

lemma chainList_nodup {s : FsState} : ∀ {f c : Nat} {l : List Nat},
    chainList s c f = some l → l.Nodup := by
  intro f
  induction f with
  | zero => intro c l h; simp [chainList] at h
  | succ f ih =>
    intro c l h
    rw [chainList] at h
    split at h
    · have hl : l = [c] := by simp_all
      simp [hl]
    · rename_i hc
      cases hh : chainList s (GetNextClus s c) f with
      | none => rw [hh] at h; simp at h
      | some t =>
        rw [hh] at h
        have hl : l = c :: t := by simp_all
        subst hl
        rw [List.nodup_cons]
        refine ⟨?_, ih hh⟩
        intro hmem
        obtain ⟨f', t', pre, ht', hsplit⟩ := chainList_mem_suffix hh hmem
        have horig : chainList s c (f + 1) = some (c :: t) := by
          rw [chainList, if_neg hc, hh]
        have := chainList_det ht' horig
        subst this
        have := congrArg List.length hsplit
        simp at this
        omega

lemma chainList_congr {s1 s2 : FsState} : ∀ {f c : Nat} {l : List Nat},
    (∀ x ∈ l, GetNextClus s2 x = GetNextClus s1 x) →
    chainList s1 c f = some l → chainList s2 c f = some l := by
  intro f
  induction f with
  | zero => intro c l _ h; simp [chainList] at h
  | succ f ih =>
    intro c l hkeep h
    rw [chainList] at h ⊢
    split at h
    · rename_i hc
      have hl : l = [c] := by simp_all
      subst hl
      rw [hkeep c (by simp), if_pos hc]
    · rename_i hc
      cases hh : chainList s1 (GetNextClus s1 c) f with
      | none => rw [hh] at h; simp at h
      | some t =>
        rw [hh] at h
        have hl : l = c :: t := by simp_all
        subst hl
        rw [hkeep c (by simp), if_neg hc]
        rw [ih (fun x hx => hkeep x (by simp [hx])) hh]

lemma chainList_fuel_ge {s : FsState} : ∀ {f c : Nat} {l : List Nat},
    chainList s c f = some l → ∀ f', l.length ≤ f' →
    chainList s c f' = some l := by
  intro f
  induction f with
  | zero => intro c l h; simp [chainList] at h
  | succ f ih =>
    intro c l h f' hf'
    rw [chainList] at h
    split at h
    · rename_i hc
      have hl : l = [c] := by simp_all
      subst hl
      match f' with
      | f' + 1 => rw [chainList, if_pos hc]
    · rename_i hc
      cases hh : chainList s (GetNextClus s c) f with
      | none => rw [hh] at h; simp at h
      | some t =>
        rw [hh] at h
        have hl : l = c :: t := by simp_all
        subst hl
        simp only [List.length_cons] at hf'
        match f' with
        | f' + 1 =>
          rw [chainList, if_neg hc, ih hh f' (by omega)]

lemma walkToEnd_eq_getLast {s : FsState} : ∀ {f c : Nat} {l : List Nat},
    chainList s c f = some l → l.getLast? = some (walkToEnd s c f) := by
  intro f
  induction f with
  | zero => intro c l h; simp [chainList] at h
  | succ f ih =>
    intro c l h
    rw [chainList] at h
    rw [walkToEnd]
    split at h
    · rename_i hc
      have hl : l = [c] := by simp_all
      subst hl
      simp only [if_pos hc]
      rfl
    · rename_i hc
      cases hh : chainList s (GetNextClus s c) f with
      | none => rw [hh] at h; simp at h
      | some t =>
        rw [hh] at h
        have hl : l = c :: t := by simp_all
        subst hl
        simp only [if_neg hc]
        obtain ⟨t', ht'⟩ := chainList_head hh
        subst ht'
        rw [List.getLast?_cons_cons]
        exact ih hh

lemma setNextClus_fat (s : FsState) (n v x : Nat) :
    (SetNextClus s n v).fat x = if x = n then v &&& FATMASK else s.fat x := rfl

lemma setNextClus_frame (s : FsState) (n v : Nat) :
    (SetNextClus s n v).freeCount = s.freeCount ∧
    (SetNextClus s n v).nextFree = s.nextFree ∧
    (SetNextClus s n v).mem = s.mem ∧
    (SetNextClus s n v).info = s.info ∧
    (SetNextClus s n v).cwd = s.cwd ∧
    (SetNextClus s n v).location = s.location :=
  ⟨rfl, rfl, rfl, rfl, rfl, rfl⟩

lemma updateClusCount_freeCount (s : FsState) (op : Nat → Nat) :
    (UpdateClusCount s op).freeCount = op s.freeCount % 2 ^ 32 := rfl

lemma updateClusCount_frame (s : FsState) (op : Nat → Nat) :
    (UpdateClusCount s op).fat = s.fat ∧
    (UpdateClusCount s op).nextFree = s.nextFree ∧
    (UpdateClusCount s op).mem = s.mem ∧
    (UpdateClusCount s op).info = s.info ∧
    (UpdateClusCount s op).cwd = s.cwd ∧
    (UpdateClusCount s op).location = s.location :=
  ⟨rfl, rfl, rfl, rfl, rfl, rfl⟩

lemma setFATNxtFree_nextFree (s : FsState) (c : Nat) :
    (SetFATNxtFree s c).nextFree = c % 2 ^ 32 := rfl

lemma setFATNxtFree_frame (s : FsState) (c : Nat) :
    (SetFATNxtFree s c).fat = s.fat ∧
    (SetFATNxtFree s c).freeCount = s.freeCount ∧
    (SetFATNxtFree s c).mem = s.mem ∧
    (SetFATNxtFree s c).info = s.info :=
  ⟨rfl, rfl, rfl, rfl⟩

lemma zeroOutCluster_mem (s : FsState) (cluster q : Nat) :
    (ZeroOutCluster s cluster).mem q =
      if s.info.BytesPerSec * s.info.GetFirstSectorOfClus cluster ≤ q ∧
         q < s.info.BytesPerSec * s.info.GetFirstSectorOfClus cluster +
             s.info.BytesPerSec * s.info.SecPerClus then 0 else s.mem q := rfl

lemma zeroOutCluster_frame (s : FsState) (cluster : Nat) :
    (ZeroOutCluster s cluster).fat = s.fat ∧
    (ZeroOutCluster s cluster).freeCount = s.freeCount ∧
    (ZeroOutCluster s cluster).nextFree = s.nextFree ∧
    (ZeroOutCluster s cluster).info = s.info :=
  ⟨rfl, rfl, rfl, rfl⟩

lemma freeChainLoop_succ (s : FsState) (c count f : Nat) :
    freeChainLoop s c count (f + 1) =
      if GetNextClus s c < FATEND then
        freeChainLoop
          (UpdateClusCount (SetNextClus s c 0) (fun value => (value + 1) % 2 ^ 32))
          (GetNextClus s c) (count + 1) f
      else
        (UpdateClusCount (SetNextClus s c 0) (fun value => (value + 1) % 2 ^ 32),
          count + 1) := rfl

lemma freeChainLoop_spec : ∀ (f : Nat) (s : FsState) (c : Nat) (l : List Nat)
    (count : Nat), chainList s c f = some l →
    (freeChainLoop s c count f).1.freeCount = (s.freeCount + l.length) % 2 ^ 32 ∧
    (freeChainLoop s c count f).2 = count + l.length ∧
    (freeChainLoop s c count f).1.mem = s.mem ∧
    (freeChainLoop s c count f).1.nextFree = s.nextFree ∧
    (freeChainLoop s c count f).1.info = s.info ∧
    (freeChainLoop s c count f).1.cwd = s.cwd ∧
    (freeChainLoop s c count f).1.location = s.location ∧
    (∀ x, x ∉ l → (freeChainLoop s c count f).1.fat x = s.fat x) ∧
    (∀ x ∈ l, (freeChainLoop s c count f).1.fat x = 0) := by
  intro f
  induction f with
  | zero => intro s c l count h; simp [chainList] at h
  | succ f ih =>
    intro s c l count h
    rw [chainList] at h
    rw [freeChainLoop_succ]
    by_cases hc : FATEND ≤ GetNextClus s c
    · rw [if_pos hc] at h
      rw [if_neg (by omega)]
      simp only [Option.some_inj] at h
      subst h
      refine ⟨?_, by simp, rfl, rfl, rfl, rfl, rfl, ?_, ?_⟩
      · rw [updateClusCount_freeCount]
        simp only [SetNextClus, List.length_cons, List.length_nil]
        rw [Nat.mod_mod_of_dvd _ dvd_rfl]
      · intro x hx
        simp only [List.mem_singleton] at hx
        rw [(updateClusCount_frame _ _).1, setNextClus_fat, if_neg hx]
      · intro x hx
        simp only [List.mem_singleton] at hx
        subst hx
        rw [(updateClusCount_frame _ _).1, setNextClus_fat, if_pos rfl]
        simp
    · rw [if_neg hc] at h
      rw [if_pos (by omega)]
      cases hh : chainList s (GetNextClus s c) f with
      | none => rw [hh] at h; simp at h
      | some t =>
        rw [hh] at h
        simp only [Option.some_inj] at h
        subst h
        have horig : chainList s c (f + 1) = some (c :: t) := by
          rw [chainList, if_neg hc, hh]
        have hnodup := chainList_nodup horig
        have hcnott : c ∉ t := (List.nodup_cons.mp hnodup).1
        set s2 := UpdateClusCount (SetNextClus s c 0)
          (fun value => (value + 1) % 2 ^ 32) with hs2
        have hfat2 : ∀ x, x ≠ c → s2.fat x = s.fat x := by
          intro x hx
          rw [hs2, (updateClusCount_frame _ _).1, setNextClus_fat, if_neg hx]
        have hchain2 : chainList s2 (GetNextClus s c) f = some t := by
          apply chainList_congr _ hh
          intro x hx
          have hxc : x ≠ c := fun hxc => hcnott (hxc ▸ hx)
          simp only [GetNextClus, hfat2 x hxc]
        obtain ⟨ihA, ihB, ihC, ihD, ihE, ihF, ihG, ihH, ihI⟩ :=
          ih s2 (GetNextClus s c) t (count + 1) hchain2
        have hfc2 : s2.freeCount = (s.freeCount + 1) % 2 ^ 32 := by
          rw [hs2, updateClusCount_freeCount]
          simp only [SetNextClus]
          rw [Nat.mod_mod_of_dvd _ dvd_rfl]
        refine ⟨?_, ?_, ?_, ?_, ?_, ?_, ?_, ?_, ?_⟩
        · rw [ihA, hfc2, Nat.mod_add_mod, List.length_cons]
          have harr : s.freeCount + 1 + t.length = s.freeCount + (t.length + 1) := by
            omega
          rw [harr]
        · rw [ihB, List.length_cons]
          omega
        · rw [ihC, hs2]
          rfl
        · rw [ihD, hs2]
          rfl
        · rw [ihE, hs2]
          rfl
        · rw [ihF, hs2]
          rfl
        · rw [ihG, hs2]
          rfl
        · intro x hx
          simp only [List.mem_cons, not_or] at hx
          rw [ihH x hx.2, hfat2 x hx.1]
        · intro x hx
          simp only [List.mem_cons] at hx
          rcases hx with hx | hx
          · subst hx
            rw [ihH x hcnott, hs2, (updateClusCount_frame _ _).1,
              setNextClus_fat, if_pos rfl]
            simp
          · exact ihI x hx

lemma saveFileEntry_mem_name (s : FsState) (e : FileEntry)
    (mday mon year sec min hour j : Nat) (hj : j < 11) :
    (SaveFileEntry s e mday mon year sec min hour).mem (e.entryLoc + j) =
      (e.name.getD j (Char.ofNat 0)).toNat % 256 := by
  have w11 : ∀ m : Mem, writeBytesLE m (e.entryLoc + 28) 4 e.size
      (e.entryLoc + j) = m (e.entryLoc + j) :=
    fun m => writeBytesLE_out _ _ _ _ _ (by omega)
  have w10 : ∀ m : Mem, writeBytesLE m (e.entryLoc + 26) 2 e.lo
      (e.entryLoc + j) = m (e.entryLoc + j) :=
    fun m => writeBytesLE_out _ _ _ _ _ (by omega)
  have w9 : ∀ m : Mem, writeBytesLE m (e.entryLoc + 24) 2
      (SetCurrentTime mday mon year sec min hour).2 (e.entryLoc + j) =
      m (e.entryLoc + j) :=
    fun m => writeBytesLE_out _ _ _ _ _ (by omega)
  have w8 : ∀ m : Mem, writeBytesLE m (e.entryLoc + 22) 2
      (SetCurrentTime mday mon year sec min hour).1 (e.entryLoc + j) =
      m (e.entryLoc + j) :=
    fun m => writeBytesLE_out _ _ _ _ _ (by omega)
  have w7 : ∀ m : Mem, writeBytesLE m (e.entryLoc + 20) 2 e.hi
      (e.entryLoc + j) = m (e.entryLoc + j) :=
    fun m => writeBytesLE_out _ _ _ _ _ (by omega)
  have w6 : ∀ m : Mem, writeBytesLE m (e.entryLoc + 18) 2 0
      (e.entryLoc + j) = m (e.entryLoc + j) :=
    fun m => writeBytesLE_out _ _ _ _ _ (by omega)
  have w5 : ∀ m : Mem, writeBytesLE m (e.entryLoc + 16) 2 0
      (e.entryLoc + j) = m (e.entryLoc + j) :=
    fun m => writeBytesLE_out _ _ _ _ _ (by omega)
  have w4 : ∀ m : Mem, writeBytesLE m (e.entryLoc + 14) 2 0
      (e.entryLoc + j) = m (e.entryLoc + j) :=
    fun m => writeBytesLE_out _ _ _ _ _ (by omega)
  have w3 : ∀ m : Mem, writeBytesLE m (e.entryLoc + 13) 1 0
      (e.entryLoc + j) = m (e.entryLoc + j) :=
    fun m => writeBytesLE_out _ _ _ _ _ (by omega)
  have w2 : ∀ m : Mem, writeBytesLE m (e.entryLoc + 11) 1 e.attr
      (e.entryLoc + j) = m (e.entryLoc + j) :=
    fun m => writeBytesLE_out _ _ _ _ _ (by omega)
  simp only [SaveFileEntry]
  rw [w11, w10, w9, w8, w7, w6, w5, w4, w3, w2]
  have hW := writeListLE_w1_at
    ((List.range 11).map (fun i => (e.name.getD i (Char.ofNat 0)).toNat))
    s.mem e.entryLoc j (by simpa using hj)
  rw [hW]
  congr 1
  rw [List.getD_eq_getElem _ _ (by simpa using hj), List.getElem_map]
  simp

lemma saveFileEntry_mem_attr (s : FsState) (e : FileEntry)
    (mday mon year sec min hour : Nat) :
    (SaveFileEntry s e mday mon year sec min hour).mem (e.entryLoc + 11) =
      e.attr % 256 := by
  have w11 : ∀ m : Mem, writeBytesLE m (e.entryLoc + 28) 4 e.size
      (e.entryLoc + 11) = m (e.entryLoc + 11) :=
    fun m => writeBytesLE_out _ _ _ _ _ (by omega)
  have w10 : ∀ m : Mem, writeBytesLE m (e.entryLoc + 26) 2 e.lo
      (e.entryLoc + 11) = m (e.entryLoc + 11) :=
    fun m => writeBytesLE_out _ _ _ _ _ (by omega)
  have w9 : ∀ m : Mem, writeBytesLE m (e.entryLoc + 24) 2
      (SetCurrentTime mday mon year sec min hour).2 (e.entryLoc + 11) =
      m (e.entryLoc + 11) :=
    fun m => writeBytesLE_out _ _ _ _ _ (by omega)
  have w8 : ∀ m : Mem, writeBytesLE m (e.entryLoc + 22) 2
      (SetCurrentTime mday mon year sec min hour).1 (e.entryLoc + 11) =
      m (e.entryLoc + 11) :=
    fun m => writeBytesLE_out _ _ _ _ _ (by omega)
  have w7 : ∀ m : Mem, writeBytesLE m (e.entryLoc + 20) 2 e.hi
      (e.entryLoc + 11) = m (e.entryLoc + 11) :=
    fun m => writeBytesLE_out _ _ _ _ _ (by omega)
  have w6 : ∀ m : Mem, writeBytesLE m (e.entryLoc + 18) 2 0
      (e.entryLoc + 11) = m (e.entryLoc + 11) :=
    fun m => writeBytesLE_out _ _ _ _ _ (by omega)
  have w5 : ∀ m : Mem, writeBytesLE m (e.entryLoc + 16) 2 0
      (e.entryLoc + 11) = m (e.entryLoc + 11) :=
    fun m => writeBytesLE_out _ _ _ _ _ (by omega)
  have w4 : ∀ m : Mem, writeBytesLE m (e.entryLoc + 14) 2 0
      (e.entryLoc + 11) = m (e.entryLoc + 11) :=
    fun m => writeBytesLE_out _ _ _ _ _ (by omega)
  have w3 : ∀ m : Mem, writeBytesLE m (e.entryLoc + 13) 1 0
      (e.entryLoc + 11) = m (e.entryLoc + 11) :=
    fun m => writeBytesLE_out _ _ _ _ _ (by omega)
  have w2 : ∀ m : Mem, writeBytesLE m (e.entryLoc + 11) 1 e.attr
      (e.entryLoc + 11) = (e.attr >>> (8 * (e.entryLoc + 11 - (e.entryLoc + 11)))) % 256 :=
    fun m => writeBytesLE_in _ _ _ _ _ (by omega) (by omega)
  simp only [SaveFileEntry]
  rw [w11, w10, w9, w8, w7, w6, w5, w4, w3, w2]
  simp

lemma saveFileEntry_mem_12 (s : FsState) (e : FileEntry)
    (mday mon year sec min hour : Nat) :
    (SaveFileEntry s e mday mon year sec min hour).mem (e.entryLoc + 12) =
      s.mem (e.entryLoc + 12) := by
  have w11 : ∀ m : Mem, writeBytesLE m (e.entryLoc + 28) 4 e.size
      (e.entryLoc + 12) = m (e.entryLoc + 12) :=
    fun m => writeBytesLE_out _ _ _ _ _ (by omega)
  have w10 : ∀ m : Mem, writeBytesLE m (e.entryLoc + 26) 2 e.lo
      (e.entryLoc + 12) = m (e.entryLoc + 12) :=
    fun m => writeBytesLE_out _ _ _ _ _ (by omega)
  have w9 : ∀ m : Mem, writeBytesLE m (e.entryLoc + 24) 2
      (SetCurrentTime mday mon year sec min hour).2 (e.entryLoc + 12) =
      m (e.entryLoc + 12) :=
    fun m => writeBytesLE_out _ _ _ _ _ (by omega)
  have w8 : ∀ m : Mem, writeBytesLE m (e.entryLoc + 22) 2
      (SetCurrentTime mday mon year sec min hour).1 (e.entryLoc + 12) =
      m (e.entryLoc + 12) :=
    fun m => writeBytesLE_out _ _ _ _ _ (by omega)
  have w7 : ∀ m : Mem, writeBytesLE m (e.entryLoc + 20) 2 e.hi
      (e.entryLoc + 12) = m (e.entryLoc + 12) :=
    fun m => writeBytesLE_out _ _ _ _ _ (by omega)
  have w6 : ∀ m : Mem, writeBytesLE m (e.entryLoc + 18) 2 0
      (e.entryLoc + 12) = m (e.entryLoc + 12) :=
    fun m => writeBytesLE_out _ _ _ _ _ (by omega)
  have w5 : ∀ m : Mem, writeBytesLE m (e.entryLoc + 16) 2 0
      (e.entryLoc + 12) = m (e.entryLoc + 12) :=
    fun m => writeBytesLE_out _ _ _ _ _ (by omega)
  have w4 : ∀ m : Mem, writeBytesLE m (e.entryLoc + 14) 2 0
      (e.entryLoc + 12) = m (e.entryLoc + 12) :=
    fun m => writeBytesLE_out _ _ _ _ _ (by omega)
  have w3 : ∀ m : Mem, writeBytesLE m (e.entryLoc + 13) 1 0
      (e.entryLoc + 12) = m (e.entryLoc + 12) :=
    fun m => writeBytesLE_out _ _ _ _ _ (by omega)
  have w2 : ∀ m : Mem, writeBytesLE m (e.entryLoc + 11) 1 e.attr
      (e.entryLoc + 12) = m (e.entryLoc + 12) :=
    fun m => writeBytesLE_out _ _ _ _ _ (by omega)
  have w1 : writeListLE s.mem
      ((List.range 11).map (fun i => (e.name.getD i (Char.ofNat 0)).toNat))
      e.entryLoc 1 (e.entryLoc + 12) = s.mem (e.entryLoc + 12) :=
    writeListLE_out _ _ _ _ _ (by simp)
  simp only [SaveFileEntry]
  rw [w11, w10, w9, w8, w7, w6, w5, w4, w3, w2, w1]

lemma saveFileEntry_mem_zero (s : FsState) (e : FileEntry)
    (mday mon year sec min hour j : Nat) (hj1 : 13 ≤ j) (hj2 : j ≤ 19) :
    (SaveFileEntry s e mday mon year sec min hour).mem (e.entryLoc + j) = 0 := by
  have w11 : ∀ m : Mem, writeBytesLE m (e.entryLoc + 28) 4 e.size
      (e.entryLoc + j) = m (e.entryLoc + j) :=
    fun m => writeBytesLE_out _ _ _ _ _ (by omega)
  have w10 : ∀ m : Mem, writeBytesLE m (e.entryLoc + 26) 2 e.lo
      (e.entryLoc + j) = m (e.entryLoc + j) :=
    fun m => writeBytesLE_out _ _ _ _ _ (by omega)
  have w9 : ∀ m : Mem, writeBytesLE m (e.entryLoc + 24) 2
      (SetCurrentTime mday mon year sec min hour).2 (e.entryLoc + j) =
      m (e.entryLoc + j) :=
    fun m => writeBytesLE_out _ _ _ _ _ (by omega)
  have w8 : ∀ m : Mem, writeBytesLE m (e.entryLoc + 22) 2
      (SetCurrentTime mday mon year sec min hour).1 (e.entryLoc + j) =
      m (e.entryLoc + j) :=
    fun m => writeBytesLE_out _ _ _ _ _ (by omega)
  have w7 : ∀ m : Mem, writeBytesLE m (e.entryLoc + 20) 2 e.hi
      (e.entryLoc + j) = m (e.entryLoc + j) :=
    fun m => writeBytesLE_out _ _ _ _ _ (by omega)
  simp only [SaveFileEntry]
  rw [w11, w10, w9, w8, w7]
  rcases (by omega : (18 ≤ j ∧ j ≤ 19) ∨ (16 ≤ j ∧ j ≤ 17) ∨
      (14 ≤ j ∧ j ≤ 15) ∨ j = 13) with hr | hr | hr | hr
  · rw [writeBytesLE_in _ _ _ _ _ (by omega) (by omega)]
    simp
  · rw [writeBytesLE_out _ _ _ _ _ (by omega)]
    rw [writeBytesLE_in _ _ _ _ _ (by omega) (by omega)]
    simp
  · rw [writeBytesLE_out _ _ _ _ _ (by omega)]
    rw [writeBytesLE_out _ _ _ _ _ (by omega)]
    rw [writeBytesLE_in _ _ _ _ _ (by omega) (by omega)]
    simp
  · rw [writeBytesLE_out _ _ _ _ _ (by omega)]
    rw [writeBytesLE_out _ _ _ _ _ (by omega)]
    rw [writeBytesLE_out _ _ _ _ _ (by omega)]
    rw [writeBytesLE_in _ _ _ _ _ (by omega) (by omega)]
    simp

lemma saveFileEntry_mem_hi (s : FsState) (e : FileEntry)
    (mday mon year sec min hour j : Nat) (hj1 : 20 ≤ j) (hj2 : j ≤ 21) :
    (SaveFileEntry s e mday mon year sec min hour).mem (e.entryLoc + j) =
      (e.hi >>> (8 * (j - 20))) % 256 := by
  simp only [SaveFileEntry]
  rw [writeBytesLE_out _ _ _ _ _ (by omega)]
  rw [writeBytesLE_out _ _ _ _ _ (by omega)]
  rw [writeBytesLE_out _ _ _ _ _ (by omega)]
  rw [writeBytesLE_out _ _ _ _ _ (by omega)]
  rw [writeBytesLE_in _ _ _ _ _ (by omega) (by omega)]
  congr 2
  omega

lemma saveFileEntry_mem_time (s : FsState) (e : FileEntry)
    (mday mon year sec min hour j : Nat) (hj1 : 22 ≤ j) (hj2 : j ≤ 23) :
    (SaveFileEntry s e mday mon year sec min hour).mem (e.entryLoc + j) =
      ((SetCurrentTime mday mon year sec min hour).1 >>> (8 * (j - 22))) % 256 := by
  simp only [SaveFileEntry]
  rw [writeBytesLE_out _ _ _ _ _ (by omega)]
  rw [writeBytesLE_out _ _ _ _ _ (by omega)]
  rw [writeBytesLE_out _ _ _ _ _ (by omega)]
  rw [writeBytesLE_in _ _ _ _ _ (by omega) (by omega)]
  congr 2
  omega

lemma saveFileEntry_mem_date (s : FsState) (e : FileEntry)
    (mday mon year sec min hour j : Nat) (hj1 : 24 ≤ j) (hj2 : j ≤ 25) :
    (SaveFileEntry s e mday mon year sec min hour).mem (e.entryLoc + j) =
      ((SetCurrentTime mday mon year sec min hour).2 >>> (8 * (j - 24))) % 256 := by
  simp only [SaveFileEntry]
  rw [writeBytesLE_out _ _ _ _ _ (by omega)]
  rw [writeBytesLE_out _ _ _ _ _ (by omega)]
  rw [writeBytesLE_in _ _ _ _ _ (by omega) (by omega)]
  congr 2
  omega

lemma saveFileEntry_mem_lo (s : FsState) (e : FileEntry)
    (mday mon year sec min hour j : Nat) (hj1 : 26 ≤ j) (hj2 : j ≤ 27) :
    (SaveFileEntry s e mday mon year sec min hour).mem (e.entryLoc + j) =
      (e.lo >>> (8 * (j - 26))) % 256 := by
  simp only [SaveFileEntry]
  rw [writeBytesLE_out _ _ _ _ _ (by omega)]
  rw [writeBytesLE_in _ _ _ _ _ (by omega) (by omega)]
  congr 2
  omega

lemma saveFileEntry_mem_size (s : FsState) (e : FileEntry)
    (mday mon year sec min hour j : Nat) (hj1 : 28 ≤ j) (hj2 : j ≤ 31) :
    (SaveFileEntry s e mday mon year sec min hour).mem (e.entryLoc + j) =
      (e.size >>> (8 * (j - 28))) % 256 := by
  simp only [SaveFileEntry]
  rw [writeBytesLE_in _ _ _ _ _ (by omega) (by omega)]
  congr 2
  omega

lemma saveFileEntry_frame (s : FsState) (e : FileEntry)
    (mday mon year sec min hour : Nat) :
    (SaveFileEntry s e mday mon year sec min hour).fat = s.fat ∧
    (SaveFileEntry s e mday mon year sec min hour).freeCount = s.freeCount ∧
    (SaveFileEntry s e mday mon year sec min hour).nextFree = s.nextFree ∧
    (SaveFileEntry s e mday mon year sec min hour).info = s.info ∧
    (SaveFileEntry s e mday mon year sec min hour).cwd = s.cwd ∧
    (SaveFileEntry s e mday mon year sec min hour).location = s.location :=
  ⟨rfl, rfl, rfl, rfl, rfl, rfl⟩

lemma charToNat_ofNat (n : Nat) (h : n < 256) : (Char.ofNat n).toNat = n := by
  have hv : n.isValidChar := Or.inl (by omega)
  rw [Char.ofNat, dif_pos hv]
  simp [Char.ofNatAux, Char.toNat, UInt32.toNat, BitVec.toNat_ofNatLt]

lemma freeChainLoop_frame : ∀ (f : Nat) (s : FsState) (c count : Nat),
    (freeChainLoop s c count f).1.mem = s.mem ∧
    (freeChainLoop s c count f).1.nextFree = s.nextFree ∧
    (freeChainLoop s c count f).1.info = s.info ∧
    (freeChainLoop s c count f).1.cwd = s.cwd ∧
    (freeChainLoop s c count f).1.location = s.location := by
  intro f
  induction f with
  | zero => intro s c count; exact ⟨rfl, rfl, rfl, rfl, rfl⟩
  | succ f ih =>
    intro s c count
    rw [freeChainLoop_succ]
    by_cases hc : GetNextClus s c < FATEND
    · rw [if_pos hc]
      obtain ⟨hA, hB, hC, hD, hE⟩ := ih
        (UpdateClusCount (SetNextClus s c 0) (fun value => (value + 1) % 2 ^ 32))
        (GetNextClus s c) (count + 1)
      exact ⟨hA, hB, hC, hD, hE⟩
    · rw [if_neg hc]
      exact ⟨rfl, rfl, rfl, rfl, rfl⟩

/-- **C7.**  For a file of the current directory whose cluster chain is
`l` (length `L ≥ 1`), `rm` frees every link and increments the stored
free count once per link (filesys.cpp:1507-1519), so the count grows by
exactly `L` (the free count is a 32-bit word; the hypothesis `hov`
excludes wrap-around). -/
theorem C7_rm_increases_free_count (s : FsState) (e : FileEntry)
    (mday mon year sec min hour fuel : Nat) (l : List Nat)
    (hchain : chainList s e.clus fuel = some l)
    (hdir : e.attr &&& DIRECT ≠ DIRECT)
    (hclus : e.clus ≠ 0)
    (hov : s.freeCount + l.length < 2 ^ 32) :
    1 ≤ l.length ∧
    (RmOnEntry s e mday mon year sec min hour fuel).freeCount =
      s.freeCount + l.length := by
  have hne := chainList_ne_nil hchain
  constructor
  · cases l with
    | nil => exact absurd rfl hne
    | cons a t => simp
  · simp only [RmOnEntry, if_neg hdir, if_pos hclus]
    rw [(saveFileEntry_frame _ _ _ _ _ _ _ _).2.1]
    rw [(freeChainLoop_spec fuel s e.clus l 0 hchain).1]
    exact Nat.mod_eq_of_lt hov

/-- **C7 witness**: removing the file `e7` (chain `[5, 6]`) on `s7`
raises the free count from 10 to 12. -/
theorem C7_rm_increases_free_count_witness :
    chainList s7 e7.clus 2 = some [5, 6] ∧
    e7.attr &&& DIRECT ≠ DIRECT ∧
    e7.clus ≠ 0 ∧
    s7.freeCount + ([5, 6] : List Nat).length < 2 ^ 32 ∧
    (1 ≤ ([5, 6] : List Nat).length ∧
     (RmOnEntry s7 e7 1 1 100 0 0 0 2).freeCount =
       s7.freeCount + ([5, 6] : List Nat).length) :=
  ⟨rfl, by decide, by decide, by decide,
    C7_rm_increases_free_count s7 e7 1 1 100 0 0 0 2 [5, 6] rfl (by decide)
      (by decide) (by decide)⟩

/-- **C10.**  For a file whose stored first cluster is 0 (an empty file
as produced by `create`), `rm` skips the chain-freeing block entirely
(filesys.cpp:1507), so no FAT entry is written and the FsInfo free
count and next-free hint are untouched, while the directory entry's
first name byte becomes `0xE5`. -/
theorem C10_rm_empty_file (s : FsState) (e : FileEntry)
    (mday mon year sec min hour fuel : Nat)
    (hclus : e.clus = 0)
    (hdir : e.attr &&& DIRECT ≠ DIRECT)
    (hname : e.name ≠ []) :
    (RmOnEntry s e mday mon year sec min hour fuel).fat = s.fat ∧
    (RmOnEntry s e mday mon year sec min hour fuel).freeCount = s.freeCount ∧
    (RmOnEntry s e mday mon year sec min hour fuel).nextFree = s.nextFree ∧
    (RmOnEntry s e mday mon year sec min hour fuel).mem e.entryLoc = 0xE5 := by
  have hskip : ¬(e.clus ≠ 0) := by simp [hclus]
  simp only [RmOnEntry, if_neg hdir, if_neg hskip]
  refine ⟨(saveFileEntry_frame _ _ _ _ _ _ _ _).1,
    (saveFileEntry_frame _ _ _ _ _ _ _ _).2.1,
    (saveFileEntry_frame _ _ _ _ _ _ _ _).2.2.1, ?_⟩
  have h0 := saveFileEntry_mem_name s (markDeleted e) mday mon year sec min
    hour 0 (by omega)
  have hloc : (markDeleted e).entryLoc = e.entryLoc := rfl
  rw [hloc, Nat.add_zero] at h0
  rw [h0]
  have hgd : (markDeleted e).name.getD 0 (Char.ofNat 0) = Char.ofNat 0xE5 := by
    cases hn : e.name with
    | nil => exact absurd hn hname
    | cons a t => simp [markDeleted, hn]
  rw [hgd]
  decide

/-- **C10 witness**: removing the empty file `e10` on `s10` leaves the
FAT, the free count and the hint unchanged and tombstones the entry. -/
theorem C10_rm_empty_file_witness :
    e10.clus = 0 ∧
    e10.attr &&& DIRECT ≠ DIRECT ∧
    e10.name ≠ [] ∧
    ((RmOnEntry s10 e10 1 1 100 0 0 0 1).fat = s10.fat ∧
     (RmOnEntry s10 e10 1 1 100 0 0 0 1).freeCount = s10.freeCount ∧
     (RmOnEntry s10 e10 1 1 100 0 0 0 1).nextFree = s10.nextFree ∧
     (RmOnEntry s10 e10 1 1 100 0 0 0 1).mem e10.entryLoc = 0xE5) :=
  ⟨rfl, by decide, by decide,
    C10_rm_empty_file s10 e10 1 1 100 0 0 0 1 rfl (by decide) (by decide)⟩

lemma takeWhile_of_all {α : Type} (p : α → Bool) : ∀ (l : List α),
    (∀ x ∈ l, p x = true) → l.takeWhile p = l := by
  intro l
  induction l with
  | nil => intro _; rfl
  | cons a t ih =>
    intro h
    rw [List.takeWhile_cons, if_pos (h a (by simp)), ih (fun x hx => h x (by simp [hx]))]

lemma readEntryAt_name_full (s : FsState) (loc : Nat)
    (hb : ∀ k, k < 11 → s.mem (loc + k) < 256)
    (hnz : ∀ k, k < 11 → s.mem (loc + k) ≠ 0) :
    (readEntryAt s loc).name =
      (List.range 11).map (fun i => Char.ofNat (readBytesLE s.mem (loc + i) 1)) := by
  show ((List.range 11).map
    (fun i => Char.ofNat (readBytesLE s.mem (loc + i) 1))).takeWhile
    (fun c => c ≠ Char.ofNat 0) = _
  apply takeWhile_of_all
  intro x hx
  simp only [List.mem_map, List.mem_range] at hx
  obtain ⟨i, hi, rfl⟩ := hx
  rw [readBytesLE_one]
  simp only [ne_eq, decide_eq_true_eq]
  intro heq
  apply hnz i hi
  have htn := congrArg Char.toNat heq
  rw [charToNat_ofNat _ (hb i hi)] at htn
  rw [htn]
  decide

lemma readEntryAt_name_getD (s : FsState) (loc j : Nat) (hj : j < 11)
    (hb : ∀ k, k < 11 → s.mem (loc + k) < 256)
    (hnz : ∀ k, k < 11 → s.mem (loc + k) ≠ 0) :
    (readEntryAt s loc).name.getD j (Char.ofNat 0) =
      Char.ofNat (s.mem (loc + j)) := by
  rw [readEntryAt_name_full s loc hb hnz]
  rw [List.getD_eq_getElem _ _ (by simpa using hj), List.getElem_map,
    readBytesLE_one]
  congr 2
  simp

lemma readEntryAt_name_length (s : FsState) (loc : Nat)
    (hb : ∀ k, k < 11 → s.mem (loc + k) < 256)
    (hnz : ∀ k, k < 11 → s.mem (loc + k) ≠ 0) :
    (readEntryAt s loc).name.length = 11 := by
  rw [readEntryAt_name_full s loc hb hnz]
  simp

lemma markDeleted_name_getD_pos (e : FileEntry) (j : Nat)
    (hj : j < e.name.length) (hj0 : j ≠ 0) :
    (markDeleted e).name.getD j (Char.ofNat 0) =
      e.name.getD j (Char.ofNat 0) := by
  simp only [markDeleted]
  rw [List.getD_eq_getElem _ _ (by simpa using hj),
    List.getD_eq_getElem _ _ hj]
  exact List.getElem_set_ne (by omega) _

lemma tombstone_key (s s1 : FsState) (loc mday mon year sec min hour : Nat)
    (hmem : s1.mem = s.mem)
    (hwf : ∀ j, j < 32 → s.mem (loc + j) < 256)
    (hnz : ∀ j, j < 11 → s.mem (loc + j) ≠ 0) :
    TombstoneSpec s loc mday mon year sec min hour
      (SaveFileEntry s1 (markDeleted (readEntryAt s loc))
        mday mon year sec min hour) := by
  have hb : ∀ k, k < 11 → s.mem (loc + k) < 256 :=
    fun k hk => hwf k (by omega)
  have hloc : (markDeleted (readEntryAt s loc)).entryLoc = loc := rfl
  have hlen : (readEntryAt s loc).name.length = 11 :=
    readEntryAt_name_length s loc hb hnz
  have hnne : (readEntryAt s loc).name ≠ [] := by
    intro hnil
    rw [hnil] at hlen
    simp at hlen
  have hattr : (markDeleted (readEntryAt s loc)).attr = s.mem (loc + 11) := by
    rw [show (markDeleted (readEntryAt s loc)).attr =
      readBytesLE s.mem (loc + 11) 1 from rfl, readBytesLE_one]
  have hhi : (markDeleted (readEntryAt s loc)).hi =
      s.mem (loc + 20) + 256 * s.mem (loc + 21) := by
    rw [show (markDeleted (readEntryAt s loc)).hi =
      readBytesLE s.mem (loc + 20) 2 from rfl,
      readBytesLE_two _ _ (hwf 20 (by omega))]
  have hlo : (markDeleted (readEntryAt s loc)).lo =
      s.mem (loc + 26) + 256 * s.mem (loc + 27) := by
    rw [show (markDeleted (readEntryAt s loc)).lo =
      readBytesLE s.mem (loc + 26) 2 from rfl,
      readBytesLE_two _ _ (hwf 26 (by omega))]
  have hsz : (markDeleted (readEntryAt s loc)).size =
      s.mem (loc + 28) + 256 * (s.mem (loc + 29) + 256 *
        (s.mem (loc + 30) + 256 * s.mem (loc + 31))) := by
    rw [show (markDeleted (readEntryAt s loc)).size =
      readBytesLE s.mem (loc + 28) 4 from rfl,
      readBytesLE_four _ _ (hwf 28 (by omega)) (by
        rw [show loc + 28 + 1 = loc + 29 by omega]
        exact hwf 29 (by omega)) (by
        rw [show loc + 28 + 2 = loc + 30 by omega]
        exact hwf 30 (by omega))]
  refine ⟨?_, ?_, ?_, ?_, ?_, ?_, ?_, ?_, ?_, ?_⟩
  · have h0 := saveFileEntry_mem_name s1 (markDeleted (readEntryAt s loc))
      mday mon year sec min hour 0 (by omega)
    rw [hloc, Nat.add_zero] at h0
    rw [h0]
    have hgd : (markDeleted (readEntryAt s loc)).name.getD 0 (Char.ofNat 0) =
        Char.ofNat 0xE5 := by
      cases hn : (readEntryAt s loc).name with
      | nil => exact absurd hn hnne
      | cons a t => simp [markDeleted, hn]
    rw [hgd]
    decide
  · intro j hj1 hj2
    rcases (by omega : j < 11 ∨ j = 11 ∨ j = 12) with hcase | hcase | hcase
    · have h := saveFileEntry_mem_name s1 (markDeleted (readEntryAt s loc))
        mday mon year sec min hour j hcase
      rw [hloc] at h
      rw [h, markDeleted_name_getD_pos _ _ (by rw [hlen]; omega) (by omega),
        readEntryAt_name_getD s loc j hcase hb hnz,
        charToNat_ofNat _ (hwf j (by omega))]
      exact Nat.mod_eq_of_lt (hwf j (by omega))
    · subst hcase
      have h := saveFileEntry_mem_attr s1 (markDeleted (readEntryAt s loc))
        mday mon year sec min hour
      rw [hloc] at h
      rw [h, hattr]
      exact Nat.mod_eq_of_lt (hwf 11 (by omega))
    · subst hcase
      have h := saveFileEntry_mem_12 s1 (markDeleted (readEntryAt s loc))
        mday mon year sec min hour
      rw [hloc] at h
      rw [h, hmem]
  · intro j hj1 hj2
    have h := saveFileEntry_mem_zero s1 (markDeleted (readEntryAt s loc))
      mday mon year sec min hour j hj1 hj2
    rw [hloc] at h
    exact h
  · have h := saveFileEntry_mem_hi s1 (markDeleted (readEntryAt s loc))
      mday mon year sec min hour 20 (by omega) (by omega)
    rw [hloc] at h
    rw [h, hhi]
    simp only [Nat.sub_self, Nat.mul_zero, Nat.shiftRight_zero]
    have h20 := hwf 20 (by omega)
    omega
  · have h := saveFileEntry_mem_hi s1 (markDeleted (readEntryAt s loc))
      mday mon year sec min hour 21 (by omega) (by omega)
    rw [hloc] at h
    rw [h, hhi, Nat.shiftRight_eq_div_pow]
    norm_num
    have h20 := hwf 20 (by omega)
    have h21 := hwf 21 (by omega)
    omega
  · have h := saveFileEntry_mem_time s1 (markDeleted (readEntryAt s loc))
      mday mon year sec min hour 22 (by omega) (by omega)
    rw [hloc] at h
    rw [h]
    norm_num
  · have h := saveFileEntry_mem_time s1 (markDeleted (readEntryAt s loc))
      mday mon year sec min hour 23 (by omega) (by omega)
    rw [hloc] at h
    rw [h]
  · have h := saveFileEntry_mem_date s1 (markDeleted (readEntryAt s loc))
      mday mon year sec min hour 24 (by omega) (by omega)
    rw [hloc] at h
    rw [h]
    norm_num
  · have h := saveFileEntry_mem_date s1 (markDeleted (readEntryAt s loc))
      mday mon year sec min hour 25 (by omega) (by omega)
    rw [hloc] at h
    rw [h]
  · intro j hj1 hj2
    rcases (by omega : (26 ≤ j ∧ j ≤ 27) ∨ (28 ≤ j ∧ j ≤ 31))
      with hcase | hcase
    · have h := saveFileEntry_mem_lo s1 (markDeleted (readEntryAt s loc))
        mday mon year sec min hour j (by omega) (by omega)
      rw [hloc] at h
      rw [h, hlo, Nat.shiftRight_eq_div_pow]
      have h26 := hwf 26 (by omega)
      have h27 := hwf 27 (by omega)
      rcases (by omega : j = 26 ∨ j = 27) with hj | hj <;> subst hj <;>
        norm_num <;> omega
    · have h := saveFileEntry_mem_size s1 (markDeleted (readEntryAt s loc))
        mday mon year sec min hour j (by omega) (by omega)
      rw [hloc] at h
      rw [h, hsz, Nat.shiftRight_eq_div_pow]
      have h28 := hwf 28 (by omega)
      have h29 := hwf 29 (by omega)
      have h30 := hwf 30 (by omega)
      have h31 := hwf 31 (by omega)
      rcases (by omega : j = 28 ∨ j = 29 ∨ j = 30 ∨ j = 31)
        with hj | hj | hj | hj <;> subst hj <;> norm_num <;> omega

/-- **C3 counterexample.**  The claim says `rm` preserves every byte of
the removed 32-byte entry except the first.  On `s3c` the current
directory (cluster 2) lists exactly one allocated entry, the in-use
plain file `b` whose 32 bytes start at offset 64 and whose byte 13
(create-time-tenth) is 1; `rm b` locates that entry, tombstones it and
resaves it through `SaveFileEntry`, which zeroes byte 13
(filesys.cpp:631) — so a byte other than the first changes. -/
theorem C3_counterexample :
    GetFileList s3c 2 false 1 = [readEntryAt s3c 64] ∧
    (readEntryAt s3c 64).GetShortName = ['b'] ∧
    (readEntryAt s3c 64).attr &&& DIRECT ≠ DIRECT ∧
    s3c.mem (64 + 13) = 1 ∧
    (RmOnEntry s3c (readEntryAt s3c 64) 1 1 100 0 0 0 1).mem (64 + 13) = 0 := by
  decide

/-- **C3 amended.**  `rm` (on an entry without the DIRECTORY attribute,
the only kind it removes) and `rmdir` (on any located entry) set the
first name byte of the removed 32-byte entry to `0xE5` and preserve the
rest of the name, the attribute, the NTRes byte, the cluster halves and
the file size (bytes 1..12, 20..21, 26..31) — but, because both resave
the entry through `SaveFileEntry`, the create/access fields (bytes
13..19) are zeroed and the write time/date (bytes 22..25) are
overwritten with the current local time, so those 11 bytes are not
preserved.  The hypotheses say the 32 slot bytes are bytes and the 11
name bytes contain no NUL (true of every in-use 8.3 entry; a NUL would
truncate the `std::string` name early). -/
theorem C3_amended (s : FsState)
    (loc mday mon year sec min hour fuel : Nat)
    (hwf : ∀ j, j < 32 → s.mem (loc + j) < 256)
    (hnz : ∀ j, j < 11 → s.mem (loc + j) ≠ 0) :
    ((readEntryAt s loc).attr &&& DIRECT ≠ DIRECT →
      TombstoneSpec s loc mday mon year sec min hour
        (RmOnEntry s (readEntryAt s loc) mday mon year sec min hour fuel)) ∧
    TombstoneSpec s loc mday mon year sec min hour
      (RmdirOnEntry s (readEntryAt s loc) mday mon year sec min hour fuel) := by
  constructor
  · intro hfile
    simp only [RmOnEntry, if_neg hfile]
    by_cases hc : (readEntryAt s loc).clus ≠ 0
    · rw [if_pos hc]
      exact tombstone_key s _ loc mday mon year sec min hour
        (freeChainLoop_frame fuel s (readEntryAt s loc).clus 0).1 hwf hnz
    · rw [if_neg hc]
      exact tombstone_key s s loc mday mon year sec min hour rfl hwf hnz
  · simp only [RmdirOnEntry]
    by_cases hc : (readEntryAt s loc).clus ≠ 0
    · rw [if_pos hc]
      have hkey := tombstone_key s s loc mday mon year sec min hour rfl hwf hnz
      have hframe := (freeChainLoop_frame fuel
        (SaveFileEntry s (markDeleted (readEntryAt s loc))
          mday mon year sec min hour) (readEntryAt s loc).clus 0).1
      unfold TombstoneSpec at hkey ⊢
      rw [hframe]
      exact hkey
    · rw [if_neg hc]
      exact tombstone_key s s loc mday mon year sec min hour rfl hwf hnz

/-- **C3 amended, witness**: the `rm` conjunct at the file entry of
`s3c` (offset 64) and the `rmdir` conjunct at its directory entry
(offset 96, attr 0x10, chain `[4]`). -/
theorem C3_amended_witness :
    ((∀ j, j < 32 → s3c.mem (64 + j) < 256) ∧
     (∀ j, j < 11 → s3c.mem (64 + j) ≠ 0) ∧
     (∀ j, j < 32 → s3c.mem (96 + j) < 256) ∧
     (∀ j, j < 11 → s3c.mem (96 + j) ≠ 0) ∧
     (readEntryAt s3c 64).attr &&& DIRECT ≠ DIRECT ∧
     (readEntryAt s3c 96).attr &&& DIRECT = DIRECT) ∧
    (TombstoneSpec s3c 64 1 1 100 0 0 0
       (RmOnEntry s3c (readEntryAt s3c 64) 1 1 100 0 0 0 2) ∧
     TombstoneSpec s3c 96 1 1 100 0 0 0
       (RmdirOnEntry s3c (readEntryAt s3c 96) 1 1 100 0 0 0 2)) :=
  ⟨⟨by decide, by decide, by decide, by decide, by decide, by decide⟩,
   (C3_amended s3c 64 1 1 100 0 0 0 2 (by decide) (by decide)).1 (by decide),
   (C3_amended s3c 96 1 1 100 0 0 0 2 (by decide) (by decide)).2⟩

lemma and_FATMASK (n : Nat) : n &&& FATMASK = n % 2 ^ 28 := by
  rw [show FATMASK = 2 ^ 28 - 1 from by decide]
  exact Nat.and_pow_two_sub_one_eq_mod n 28

lemma scanFree_spec : ∀ (fuel : Nat) {s : FsState} {p e q : Nat},
    scanFree s p e fuel = some q →
    GetNextClus s q = 0 ∧ p ≤ q ∧ (q = p ∨ q < e) := by
  intro fuel
  induction fuel with
  | zero => intro s p e q h; simp [scanFree] at h
  | succ f ih =>
    intro s p e q h
    rw [scanFree] at h
    by_cases h0 : GetNextClus s p = 0
    · rw [if_pos h0] at h
      simp only [Option.some_inj] at h
      subst h
      exact ⟨h0, Nat.le_refl _, Or.inl rfl⟩
    · rw [if_neg h0] at h
      by_cases h1 : p + 1 < e
      · rw [if_pos h1] at h
        obtain ⟨ha, hb, hc⟩ := ih h
        exact ⟨ha, by omega, Or.inr (by omega)⟩
      · rw [if_neg h1] at h
        simp at h

lemma allocSearch_found {s : FsState} {c : Nat} (h : allocSearch s = some c)
    (hend : s.info.GetEndOfFat ≤ FATEND)
    (hhint : GetFATNxtFree s = 0xFFFFFFFF ∨ GetFATNxtFree s < FATEND) :
    GetNextClus s c = 0 ∧ c < FATEND := by
  have h2F : (2 : Nat) < FATEND := by decide
  unfold allocSearch at h
  by_cases hh : GetFATNxtFree s = 0xFFFFFFFF
  · rw [if_pos hh] at h
    obtain ⟨h0, hp, hor⟩ := scanFree_spec _ h
    refine ⟨h0, ?_⟩
    rcases hor with heq | hlt
    · omega
    · omega
  · rw [if_neg hh] at h
    have hhl : GetFATNxtFree s < FATEND := by
      rcases hhint with h1 | h1
      · exact absurd h1 hh
      · exact h1
    cases hsc : scanFree s (GetFATNxtFree s) s.info.GetEndOfFat
        (s.info.GetEndOfFat + 1) with
    | some p =>
      rw [hsc] at h
      simp only [Option.some_inj] at h
      subst h
      obtain ⟨h0, hp, hor⟩ := scanFree_spec _ hsc
      refine ⟨h0, ?_⟩
      rcases hor with heq | hlt
      · omega
      · omega
    | none =>
      rw [hsc] at h
      obtain ⟨h0, hp, hor⟩ := scanFree_spec _ h
      refine ⟨h0, ?_⟩
      rcases hor with heq | hlt
      · omega
      · omega

lemma chainList_append {s s2 : FsState} : ∀ {f c : Nat} {l : List Nat},
    chainList s c f = some l → ∀ (lastc newc : Nat),
    l.getLast? = some lastc → l.Nodup →
    (∀ x ∈ l, x ≠ lastc → GetNextClus s2 x = GetNextClus s x) →
    GetNextClus s2 lastc = newc → newc < FATEND →
    FATEND ≤ GetNextClus s2 newc →
    chainList s2 c (f + 1) = some (l ++ [newc]) := by
  intro f
  induction f with
  | zero => intro c l h; simp [chainList] at h
  | succ f ih =>
    intro c l h lastc newc hlast hnodup hkeep hnew hnewlt hnewe
    rw [chainList] at h
    by_cases hc : FATEND ≤ GetNextClus s c
    · rw [if_pos hc] at h
      simp only [Option.some_inj] at h
      subst h
      have hlc : lastc = c := by simpa using hlast.symm
      subst hlc
      rw [chainList, hnew, if_neg (by omega)]
      rw [show chainList s2 newc (f + 1) = some [newc] from by
        rw [chainList, if_pos hnewe]]
      simp
    · rw [if_neg hc] at h
      cases hh : chainList s (GetNextClus s c) f with
      | none => rw [hh] at h; simp at h
      | some t =>
        rw [hh] at h
        simp only [Option.some_inj] at h
        subst h
        have htne : t ≠ [] := chainList_ne_nil hh
        have hlast' : t.getLast? = some lastc := by
          cases t with
          | nil => exact absurd rfl htne
          | cons b t' => rw [← List.getLast?_cons_cons]; exact hlast
        have hcnot : c ∉ t := (List.nodup_cons.mp hnodup).1
        have hclast : c ≠ lastc := by
          intro hcl
          exact hcnot (hcl ▸ List.mem_of_mem_getLast? hlast')
        have hkc : GetNextClus s2 c = GetNextClus s c :=
          hkeep c (by simp) hclast
        rw [chainList, hkc, if_neg hc]
        rw [ih hh lastc newc hlast' (List.nodup_cons.mp hnodup).2
          (fun x hx hxl => hkeep x (by simp [hx]) hxl) hnew hnewlt hnewe]
        simp

/-- **C2.**  When `AllocateCluster(chain)` succeeds (the free-cluster
search finds `c`) on a state whose chain from `chain` is a terminating
FAT chain with no free cluster inside, whose free count is a positive
32-bit value, whose end-of-FAT bound and next-free hint are in range:
following `chain` by `GetNextClus` now reaches the new cluster `c` (the
chain becomes `l ++ [c]`), the FAT entry of `c` is an end-of-chain
marker, every data byte of cluster `c` is 0, the next-free hint equals
`c`, and the free count is one less than before (filesys.cpp:715-777). -/
theorem C2_allocate_correct (s : FsState) (location fuel c : Nat)
    (l : List Nat)
    (hchain : chainList s location fuel = some l)
    (hvalid : ∀ x ∈ l, GetNextClus s x ≠ 0)
    (hloc : location ≠ 0)
    (hfound : allocSearch s = some c)
    (hfc0 : 0 < s.freeCount) (hfc1 : s.freeCount < 2 ^ 32)
    (hend : s.info.GetEndOfFat ≤ FATEND)
    (hhint : GetFATNxtFree s = 0xFFFFFFFF ∨ GetFATNxtFree s < FATEND) :
    (AllocateCluster s location fuel).2 = c ∧
    chainList (AllocateCluster s location fuel).1 location (l.length + 1) =
      some (l ++ [c]) ∧
    FATEND ≤ GetNextClus (AllocateCluster s location fuel).1 c ∧
    (∀ off, off < s.info.BytesPerSec * s.info.SecPerClus →
      (AllocateCluster s location fuel).1.mem
        (s.info.BytesPerSec * s.info.GetFirstSectorOfClus c + off) = 0) ∧
    (AllocateCluster s location fuel).1.nextFree = c ∧
    (AllocateCluster s location fuel).1.freeCount = s.freeCount - 1 := by
  obtain ⟨hc0, hcF⟩ := allocSearch_found hfound hend hhint
  have hFlt : FATEND < 2 ^ 28 := by decide
  have hc28 : c < 2 ^ 28 := by omega
  have hcl : c ∉ l := fun hmem => hvalid c hmem hc0
  have hlast := walkToEnd_eq_getLast hchain
  have hlmem : walkToEnd s location fuel ∈ l := List.mem_of_mem_getLast? hlast
  have hcne : c ≠ walkToEnd s location fuel := fun heq => hcl (heq ▸ hlmem)
  simp only [AllocateCluster, hfound, if_pos hloc]
  set lastc := walkToEnd s location fuel with hlastc
  set s1 := SetNextClus s lastc c with hs1
  set s2 := SetNextClus s1 c 0xFFFFFFFF with hs2
  set s3 := SetFATNxtFree s2 c with hs3
  set s4 := UpdateClusCount s3
    (fun value => (value + (2 ^ 32 - 1)) % 2 ^ 32) with hs4
  set s5 := ZeroOutCluster s4 c with hs5
  have h5fat : s5.fat = s2.fat := by
    rw [hs5, (zeroOutCluster_frame _ _).1, hs4, (updateClusCount_frame _ _).1,
      hs3, (setFATNxtFree_frame _ _).1]
  have h2fat : ∀ x, s2.fat x =
      if x = c then 0xFFFFFFFF &&& FATMASK
      else if x = lastc then c &&& FATMASK else s.fat x := by
    intro x
    rw [hs2, setNextClus_fat]
    by_cases hxc : x = c
    · rw [if_pos hxc, if_pos hxc]
    · rw [if_neg hxc, if_neg hxc, hs1, setNextClus_fat]
  have hnext5 : ∀ x, GetNextClus s5 x = s2.fat x &&& FATMASK := by
    intro x
    rw [GetNextClus, h5fat]
  have hnewEoc : FATEND ≤ GetNextClus s5 c := by
    rw [hnext5, h2fat, if_pos rfl]
    decide
  have hnewlink : GetNextClus s5 lastc = c := by
    rw [hnext5, h2fat, if_neg (Ne.symm hcne), if_pos rfl, and_FATMASK,
      and_FATMASK, Nat.mod_mod_of_dvd _ dvd_rfl, Nat.mod_eq_of_lt hc28]
  refine ⟨by trivial, ?_, hnewEoc, ?_, ?_, ?_⟩
  · have hchainN : chainList s location l.length = some l :=
      chainList_fuel_ge hchain l.length (Nat.le_refl _)
    apply chainList_append hchainN lastc c hlast (chainList_nodup hchain)
      _ hnewlink hcF hnewEoc
    intro x hx hxl
    rw [GetNextClus, GetNextClus, h5fat, h2fat,
      if_neg (fun hxc : x = c => hcl (hxc ▸ hx)), if_neg hxl]
  · intro off hoff
    have h4info : s4.info = s.info := by
      rw [hs4, (updateClusCount_frame _ _).2.2.2.1, hs3,
        (setFATNxtFree_frame _ _).2.2.2, hs2, (setNextClus_frame _ _ _).2.2.2.1,
        hs1, (setNextClus_frame _ _ _).2.2.2.1]
    rw [hs5, zeroOutCluster_mem, h4info, if_pos (by omega)]
  · rw [hs5, (zeroOutCluster_frame _ _).2.2.1, hs4,
      (updateClusCount_frame _ _).2.1, hs3, setFATNxtFree_nextFree,
      Nat.mod_eq_of_lt (by omega)]
  · have h3fc : s3.freeCount = s.freeCount := by
      rw [hs3, (setFATNxtFree_frame _ _).2.1, hs2,
        (setNextClus_frame _ _ _).1, hs1, (setNextClus_frame _ _ _).1]
    rw [hs5, (zeroOutCluster_frame _ _).2.1, hs4, updateClusCount_freeCount,
      h3fc, Nat.mod_mod_of_dvd _ dvd_rfl,
      show s.freeCount + (2 ^ 32 - 1) = (s.freeCount - 1) + 2 ^ 32 from by omega,
      Nat.add_mod_right, Nat.mod_eq_of_lt (by omega)]

/-- **C2 witness**: on `s2w`, allocating onto the chain `[5]` finds the
free cluster 3, links `5 → 3`, marks 3 end-of-chain, zeroes its 4 data
bytes, sets the hint to 3 and drops the free count from 10 to 9. -/
theorem C2_allocate_correct_witness :
    (chainList s2w 5 1 = some [5] ∧
     (∀ x ∈ ([5] : List Nat), GetNextClus s2w x ≠ 0) ∧
     (5 : Nat) ≠ 0 ∧
     allocSearch s2w = some 3 ∧
     0 < s2w.freeCount ∧ s2w.freeCount < 2 ^ 32 ∧
     s2w.info.GetEndOfFat ≤ FATEND ∧
     (GetFATNxtFree s2w = 0xFFFFFFFF ∨ GetFATNxtFree s2w < FATEND)) ∧
    ((AllocateCluster s2w 5 1).2 = 3 ∧
     chainList (AllocateCluster s2w 5 1).1 5 (([5] : List Nat).length + 1) =
       some ([5] ++ [3]) ∧
     FATEND ≤ GetNextClus (AllocateCluster s2w 5 1).1 3 ∧
     (∀ off, off < s2w.info.BytesPerSec * s2w.info.SecPerClus →
       (AllocateCluster s2w 5 1).1.mem
         (s2w.info.BytesPerSec * s2w.info.GetFirstSectorOfClus 3 + off) = 0) ∧
     (AllocateCluster s2w 5 1).1.nextFree = 3 ∧
     (AllocateCluster s2w 5 1).1.freeCount = s2w.freeCount - 1) :=
  ⟨⟨by decide, by decide, by decide, by decide, by decide, by decide,
    by decide, by decide⟩,
   C2_allocate_correct s2w 5 1 3 [5] (by decide) (by decide) (by decide)
     (by decide) (by decide) (by decide) (by decide) (by decide)⟩

lemma rangePadMap (l : List Char) : ∀ (n : Nat) (d : Char),
    (List.range n).map (fun i => if l.length ≤ i then d else l.getD i d) =
      l.take n ++ List.replicate (n - l.length) d := by
  induction l with
  | nil =>
    intro n d
    simp
  | cons a t ih =>
    intro n d
    cases n with
    | zero => simp
    | succ m =>
      rw [List.range_succ_eq_map, List.map_cons, List.map_map]
      have hhead : (if (a :: t).length ≤ 0 then d else (a :: t).getD 0 d) = a := by
        simp
      rw [hhead]
      have htail : ∀ i ∈ List.range m,
          ((fun i => if (a :: t).length ≤ i then d else (a :: t).getD i d) ∘
            Nat.succ) i = (fun i => if t.length ≤ i then d else t.getD i d) i := by
        intro i _
        simp only [Function.comp_apply, List.length_cons, List.getD_cons_succ]
        by_cases hc : t.length ≤ i
        · rw [if_pos (by omega), if_pos hc]
        · rw [if_neg (by omega), if_neg hc]
      rw [List.map_congr_left htail, ih m d]
      simp only [List.take_succ_cons, List.length_cons, List.cons_append]
      rw [show m + 1 - (t.length + 1) = m - t.length from by omega]

/-- **C8 counterexample.**  The claim says `ValidateFileName` rejects
backslashes, more than one dot, and bases longer than 8, and uppercases
accepted names.  The source's character set (filesys.cpp:645) contains
no backslash, the dot checks only constrain the first dot and the
extension length, the dotted branch never checks the base length
(silently truncating it), and no branch changes case: `a\b`, `a.b.c`
and `abcdefghij.txt` are all accepted, and `ab` yields the non-
uppercased `"ab         "`. -/
theorem C8_counterexample :
    ('\\' ∈ (['a', '\\', 'b'] : List Char) ∧
      isErr (ValidateFileName ['a', '\\', 'b']) = false) ∧
    isErr (ValidateFileName ['a', '.', 'b', '.', 'c']) = false ∧
    isErr (ValidateFileName
      ['a', 'b', 'c', 'd', 'e', 'f', 'g', 'h', 'i', 'j', '.', 't', 'x', 't'])
      = false ∧
    (ValidateFileName ['a', 'b'] =
      .ok ['a', 'b', ' ', ' ', ' ', ' ', ' ', ' ', ' ', ' ', ' '] ∧
     (['a', 'b', ' ', ' ', ' ', ' ', ' ', ' ', ' ', ' ', ' '] : List Char) ≠
       ['A', 'B', ' ', ' ', ' ', ' ', ' ', ' ', ' ', ' ', ' ']) :=
  ⟨⟨by decide, rfl⟩, rfl, rfl, rfl, by decide⟩

/-- **C8 amended.**  `ValidateFileName` rejects exactly the names that
contain one of `/ space " * + backquote - ; : < > = ?` (no backslash),
or whose first dot is at position 0 or at the last position (which also
rejects the empty name through the `size_t` wrap of `length - 1`), or
whose text after the first dot is longer than 3, or which have no dot
and more than 8 characters.  An accepted dotted name yields the base
truncated to 8 and padded with spaces to 8, followed by the extension
(everything after the first dot, dots included) padded to 3; an
accepted dotless name is padded to 11; no case conversion happens. -/
theorem C8_amended (name : List Char) (hlen : name.length < 2 ^ 64) :
    (ValidateFileName name = .error () ↔
      (∃ ch ∈ name, ch ∈ invalidNameChars) ∨
      (match name.findIdx? (fun ch => ch = '.') with
       | some i => i = 0 ∨ i + 1 = name.length ∨ 3 < name.length - (i + 1)
       | none => name.length = 0 ∨ 8 < name.length)) ∧
    (∀ out, ValidateFileName name = .ok out →
      match name.findIdx? (fun ch => ch = '.') with
      | some i =>
        out = (name.take i).take 8 ++ List.replicate (8 - i) ' ' ++
          (name.drop (i + 1) ++
            List.replicate (3 - (name.length - (i + 1))) ' ')
      | none => out = name ++ List.replicate (11 - name.length) ' ') := by
  have hpred : (fun c : Char => (['.'] : List Char).contains c) =
      (fun ch : Char => decide (ch = '.')) := by
    funext c
    simp [List.contains]
  unfold ValidateFileName findFirstOf
  rw [hpred]
  cases hinv : name.findIdx? (fun c => invalidNameChars.contains c) with
  | some i =>
    simp only [hinv]
    obtain ⟨hilt, hip, _⟩ := List.findIdx?_eq_some_iff_getElem.mp hinv
    rw [if_pos (show i ≠ NPOS from by unfold NPOS; omega)]
    refine ⟨⟨fun _ => Or.inl ⟨name[i], List.getElem_mem _, ?_⟩, fun _ => rfl⟩,
      fun out hout => absurd hout (by simp)⟩
    simpa using hip
  | none =>
    simp only [hinv]
    rw [if_neg (by simp)]
    have hnoinv : ¬∃ ch ∈ name, ch ∈ invalidNameChars := by
      rw [List.findIdx?_eq_none_iff] at hinv
      rintro ⟨ch, hch, hchin⟩
      have hfalse := hinv ch hch
      have : ch ∉ invalidNameChars := by simpa using hfalse
      exact this hchin
    cases hdot : name.findIdx? (fun ch => decide (ch = '.')) with
    | some i =>
      simp only [hdot]
      obtain ⟨hilt, hip, _⟩ := List.findIdx?_eq_some_iff_getElem.mp hdot
      have hmod : (name.length + NPOS) % 2 ^ 64 = name.length - 1 := by
        rw [show name.length + NPOS = (name.length - 1) + 2 ^ 64 from by
          unfold NPOS; omega, Nat.add_mod_right, Nat.mod_eq_of_lt (by omega)]
      rw [hmod]
      by_cases hc1 : i = 0 ∨ i = name.length - 1
      · rw [if_pos hc1]
        refine ⟨⟨fun _ => Or.inr (by rcases hc1 with h | h <;> omega),
          fun _ => rfl⟩, fun out hout => absurd hout (by simp)⟩
      · rw [if_neg hc1]
        rw [if_pos (show i ≠ NPOS from by unfold NPOS; omega)]
        by_cases hc2 : 3 < name.length - (i + 1)
        · rw [if_pos hc2]
          refine ⟨⟨fun _ => Or.inr (by omega), fun _ => rfl⟩,
            fun out hout => absurd hout (by simp)⟩
        · rw [if_neg hc2]
          refine ⟨⟨fun hok => absurd hok (by simp), fun hrhs => ?_⟩, ?_⟩
          · exfalso
            rcases hrhs with h | h
            · exact hnoinv h
            · rcases h with h | h | h <;> omega
          · intro out hout
            simp only [Except.ok.injEq] at hout
            subst hout
            rw [rangePadMap, rangePadMap, List.length_take, List.length_drop]
            rw [show min i name.length = i from by omega]
            rw [List.take_of_length_le (le_of_eq_of_le (List.length_drop _ _)
              (by omega))]
    | none =>
      simp only [hdot]
      by_cases hl0 : name.length = 0
      · have hmod : (name.length + NPOS) % 2 ^ 64 = NPOS := by
          rw [hl0, Nat.zero_add]
          exact Nat.mod_eq_of_lt (by unfold NPOS; omega)
        rw [hmod, if_pos (Or.inr rfl)]
        refine ⟨⟨fun _ => Or.inr (Or.inl hl0), fun _ => rfl⟩,
          fun out hout => absurd hout (by simp)⟩
      · have hmod : (name.length + NPOS) % 2 ^ 64 = name.length - 1 := by
          rw [show name.length + NPOS = (name.length - 1) + 2 ^ 64 from by
            unfold NPOS; omega, Nat.add_mod_right, Nat.mod_eq_of_lt (by omega)]
        rw [hmod]
        rw [if_neg (show ¬(NPOS = 0 ∨ NPOS = name.length - 1) from by
          rintro (h | h)
          · exact absurd h (by decide)
          · unfold NPOS at h; omega)]
        rw [if_neg (show ¬(NPOS ≠ NPOS) from by simp)]
        by_cases hc : 8 < name.length
        · rw [if_pos hc]
          refine ⟨⟨fun _ => Or.inr (Or.inr hc), fun _ => rfl⟩,
            fun out hout => absurd hout (by simp)⟩
        · rw [if_neg hc]
          refine ⟨⟨fun hok => absurd hok (by simp), fun hrhs => ?_⟩, ?_⟩
          · exfalso
            rcases hrhs with h | h
            · exact hnoinv h
            · rcases h with h | h <;> omega
          · intro out hout
            simp only [Except.ok.injEq] at hout
            subst hout
            rw [rangePadMap, List.take_of_length_le (by omega)]

/-- **C8 amended, witness** at the name `ab`. -/
theorem C8_amended_witness :
    (['a', 'b'] : List Char).length < 2 ^ 64 ∧
    ((ValidateFileName ['a', 'b'] = .error () ↔
      (∃ ch ∈ (['a', 'b'] : List Char), ch ∈ invalidNameChars) ∨
      (match (['a', 'b'] : List Char).findIdx? (fun ch => ch = '.') with
       | some i => i = 0 ∨ i + 1 = (['a', 'b'] : List Char).length ∨
           3 < (['a', 'b'] : List Char).length - (i + 1)
       | none => (['a', 'b'] : List Char).length = 0 ∨
           8 < (['a', 'b'] : List Char).length)) ∧
    (∀ out, ValidateFileName ['a', 'b'] = .ok out →
      match (['a', 'b'] : List Char).findIdx? (fun ch => ch = '.') with
      | some i =>
        out = ((['a', 'b'] : List Char).take i).take 8 ++
          List.replicate (8 - i) ' ' ++
          ((['a', 'b'] : List Char).drop (i + 1) ++
            List.replicate (3 - ((['a', 'b'] : List Char).length - (i + 1))) ' ')
      | none => out = (['a', 'b'] : List Char) ++
          List.replicate (11 - (['a', 'b'] : List Char).length) ' ')) :=
  ⟨by decide, C8_amended ['a', 'b'] (by decide)⟩
